import Mathlib

/-!
Verification of the resume-builder document compilation pipeline
(`src/app/api/compile/route.ts`): markup validation, the compatibility
simplifier, the external typesetting client, the dialect-agnostic resume
parser and the local fallback renderer.

Strings are embedded as `List Char`; JavaScript `String.prototype.replace`
with a global literal or `[^}]*`-bracket regex is embedded by explicit
left-to-right non-overlapping scanners.
-/

set_option maxRecDepth 20000

namespace ResumePipeline

/-- Char list of a string literal. -/
def S (s : String) : List Char := s.data

/-- Split a char list at its first `}`: returns the part strictly before it
and the part strictly after it, or `none` when no `}` occurs. -/
def firstBraceSplit : List Char → Option (List Char × List Char)
  | [] => none
  | c :: cs =>
    if c = '}' then some ([], cs)
    else
      match firstBraceSplit cs with
      | none => none
      | some (a, b) => some (c :: a, b)

/-- Scanner for a global literal replace (JS `str.replace(/lit/g, repl)`):
left-to-right, non-overlapping, skipping past each match.  The `Nat` is the
number of still-to-skip characters of the current match. -/
def replaceGo (pat repl : List Char) : Nat → List Char → List Char
  | _, [] => []
  | n + 1, _ :: cs => replaceGo pat repl n cs
  | 0, c :: cs =>
    if pat.isPrefixOf (c :: cs) then repl ++ replaceGo pat repl (pat.length - 1) cs
    else c :: replaceGo pat repl 0 cs

/-- JS `str.replace(/lit/g, repl)` for a literal pattern. -/
def replaceAllL (pat repl l : List Char) : List Char := replaceGo pat repl 0 l

/-- Scanner for a global replace of `opener[^}]*}` (an opening literal, a
greedy run of non-`}` characters, then the closing `}`). -/
def brkGo (opener repl : List Char) : Nat → List Char → List Char
  | _, [] => []
  | n + 1, _ :: cs => brkGo opener repl n cs
  | 0, c :: cs =>
    if opener.isPrefixOf (c :: cs) then
      match firstBraceSplit ((c :: cs).drop opener.length) with
      | some (cap, _) => repl ++ brkGo opener repl (opener.length + cap.length) cs
      | none => c :: brkGo opener repl 0 cs
    else c :: brkGo opener repl 0 cs

/-- JS `str.replace(/opener[^}]*}/g, repl)`. -/
def brkAllL (opener repl l : List Char) : List Char := brkGo opener repl 0 l

/-- JS `str.replace(lit, repl)` with a plain-string pattern: replaces only
the first occurrence. -/
def replFirstL (pat repl : List Char) : List Char → List Char
  | [] => []
  | c :: cs =>
    if pat.isPrefixOf (c :: cs) then repl ++ (c :: cs).drop pat.length
    else c :: replFirstL pat repl cs

/-- JS `str.includes(pat)`. -/
def containsSubL (pat : List Char) : List Char → Bool
  | [] => pat.isEmpty
  | c :: cs => pat.isPrefixOf (c :: cs) || containsSubL pat cs

/-- The `\documentclass[letterpaper,11pt]{article}` literal targeted by the
baseline-margin insertion of the simplifier. -/
def documentclassLit : List Char := S "\\documentclass[letterpaper,11pt]{article}"

/-- `\addtolength\x7b` opener up to the second opening brace, for the five
page-geometry deltas removed by the simplifier. -/
def addtolengthOpener (register : String) : List Char :=
  S "\\addtolength" ++ [ '{' ] ++ S "\\" ++ S register ++ [ '}', '{' ]

/-- Embedding of `simplifyLatexForOnlineServices` (src/app/api/compile/route.ts):
the compatibility simplifier, each `simplified.replace(...)` line in source
order. -/
def simplifyLatexForOnlineServices (latex : List Char) : List Char :=
  let s := latex
  let s := replaceAllL (S "\\usepackage{fontawesome5}") (S "% fontawesome5 not available") s
  let s := replaceAllL (S "\\faPhone") (S "Tel:") s
  let s := replaceAllL (S "\\faEnvelope") (S "Email:") s
  let s := replaceAllL (S "\\faLinkedin") (S "LinkedIn:") s
  let s := replaceAllL (S "\\faGithub") (S "GitHub:") s
  let s := brkAllL (S "\\raisebox" ++ [ '{' ]) [] s
  let s := replaceAllL (S "\\usepackage{marvosym}") (S "% marvosym not available") s
  let s := replaceAllL (S "\\usepackage{multicol}") (S "% multicol simplified") s
  let s := replaceAllL (S "\\input{glyphtounicode}") (S "% glyphtounicode not available") s
  let s := brkAllL (addtolengthOpener "oddsidemargin") [] s
  let s := brkAllL (addtolengthOpener "evensidemargin") [] s
  let s := brkAllL (addtolengthOpener "textwidth") [] s
  let s := brkAllL (addtolengthOpener "topmargin") [] s
  let s := brkAllL (addtolengthOpener "textheight") [] s
  let s := replaceAllL (S "\\pagestyle{fancy}") (S "\\pagestyle{empty}") s
  let s := replaceAllL (S "\\fancyhf" ++ [ '{', '}' ]) [] s
  let s := replaceAllL (S "\\fancyfoot" ++ [ '{', '}' ]) [] s
  let s := brkAllL (S "\\renewcommand" ++ S "\\labelitemi" ++ [ '{' ]) [] s
  let s := brkAllL (S "\\renewcommand" ++ S "\\labelitemii" ++ [ '{' ]) [] s
  if containsSubL (S "\\usepackage{geometry}") s then s
  else
    replFirstL documentclassLit
      (documentclassLit ++ [ '\n' ] ++ S "\\usepackage[margin=0.75in]{geometry}") s

/-! ## Regex-matcher toolkit -/

/-- JS `\s` whitespace (ASCII range). -/
def isWsChar (c : Char) : Bool :=
  c = ' ' || c = '\t' || c = '\n' || c = '\r' || c = '\x0b' || c = '\x0c'

/-- JS `String.prototype.trim`. -/
def trimL (l : List Char) : List Char :=
  ((l.dropWhile isWsChar).reverse.dropWhile isWsChar).reverse

def toLowerL (l : List Char) : List Char := l.map Char.toLower

/-- Case-insensitive substring test (JS `a.toLowerCase().includes(b)` or an
`/i` substring pattern). -/
def ciContains (pat l : List Char) : Bool := containsSubL (toLowerL pat) (toLowerL l)

/-- JS `str.split(sep)` for a one-character separator. -/
def splitOnChar (sep : Char) : List Char → List (List Char)
  | [] => [[]]
  | c :: cs =>
    let r := splitOnChar sep cs
    if c = sep then [] :: r
    else
      match r with
      | h :: t => (c :: h) :: t
      | [] => [[c]]

/-- Split at the first occurrence of `stop`, as `firstBraceSplit` but for an
arbitrary stop character (used for `[^\]]*]`). -/
def firstSplitOn (stop : Char) : List Char → Option (List Char × List Char)
  | [] => none
  | c :: cs =>
    if c = stop then some ([], cs)
    else
      match firstSplitOn stop cs with
      | none => none
      | some (a, b) => some (c :: a, b)

/-- Match a literal at the current position, returning the rest. -/
def litP (lit l : List Char) : Option (List Char) :=
  if lit.isPrefixOf l then some (l.drop lit.length) else none

/-- Case-insensitive literal at the current position (for `/i` patterns). -/
def ciLitP (lit l : List Char) : Option (List Char) :=
  if lit.length ≤ l.length && toLowerL (l.take lit.length) = toLowerL lit then
    some (l.drop lit.length)
  else none

/-- `\s*`. -/
def wsP (l : List Char) : List Char := l.dropWhile isWsChar

/-- `([^}]+)}` at the current position: capture up to the first `}`, which
must exist, with a nonempty capture. -/
def braceCap1 (l : List Char) : Option (List Char × List Char) :=
  match firstBraceSplit l with
  | some (cap, rest) => if cap.isEmpty then none else some (cap, rest)
  | none => none

/-- `pfx([^}]+)}` at the current position, returning just the capture. -/
def litBraceCapAt (pfx l : List Char) : Option (List Char) := do
  let r ← litP pfx l
  let (cap, _) ← braceCap1 r
  return cap

/-- A greedy optional single character `X?` with backtracking: try the
continuation after consuming a matching character first, then without. -/
def optCharP {α : Type} (p : Char → Bool) (k : List Char → Option α) :
    List Char → Option α
  | [] => k []
  | c :: cs => if p c then (k cs).orElse (fun _ => k (c :: cs)) else k (c :: cs)

/-- `\s*([cls]+)` where the class contains the whitespace characters: the
greedy `\s*` eats the whitespace run and the group takes the following
class run; when only whitespace is available the engine backtracks one
whitespace character into the group. -/
def wsThenPlus (p : Char → Bool) (l : List Char) : Option (List Char × List Char) :=
  let t := l.takeWhile p
  if t.isEmpty then none
  else
    let a := l.takeWhile isWsChar
    if a.length < t.length then some (t.drop a.length, l.drop t.length)
    else some ([t.getLastD ' '], l.drop t.length)

/-- Leftmost-match search: try the at-position matcher at every position,
left to right. -/
def scanFirst {α : Type} (f : List Char → Option α) : List Char → Option α
  | [] => f []
  | c :: cs => (f (c :: cs)).orElse fun _ => scanFirst f cs

/-- `regex.exec` loop with the `/g` flag: collect every non-overlapping
match left to right, resuming after each match's end.  The at-position
matcher returns the payload and the rest after the match. -/
def scanAllGo {α : Type} (f : List Char → Option (α × List Char)) :
    Nat → List Char → List α
  | _, [] => []
  | n + 1, _ :: cs => scanAllGo f n cs
  | 0, c :: cs =>
    match f (c :: cs) with
    | some (a, rest) => a :: scanAllGo f ((c :: cs).length - rest.length - 1) cs
    | none => scanAllGo f 0 cs

def scanAllL {α : Type} (f : List Char → Option (α × List Char)) (l : List Char) :
    List α :=
  scanAllGo f 0 l

/-- `([\s\S]*?)(?=alt₁|…|$)`: lazy capture up to the first position where a
lookahead alternative matches (that position is not consumed), or the end. -/
def lazyUntil (alts : List (List Char)) : List Char → List Char × List Char
  | [] => ([], [])
  | c :: cs =>
    if alts.any (fun a => a.isPrefixOf (c :: cs)) then ([], c :: cs)
    else
      let (cap, rest) := lazyUntil alts cs
      (c :: cap, rest)

/-- `([\s\S]*?)lit`: lazy capture up to the first occurrence of `lit`,
returning the capture and the rest after `lit`. -/
def lazyUntilLit (lit : List Char) : List Char → Option (List Char × List Char)
  | [] => none
  | c :: cs =>
    if lit.isPrefixOf (c :: cs) then some ([], (c :: cs).drop lit.length)
    else
      match lazyUntilLit lit cs with
      | some (cap, rest) => some (c :: cap, rest)
      | none => none

/-- First `some` in a list of alternatives (an ordered extractor list). -/
def firstSome {α : Type} : List (Option α) → Option α
  | [] => none
  | o :: os => o.orElse fun _ => firstSome os

/-- `[0-9]{n}`: exactly `n` digits. -/
def digitsN (n : Nat) (l : List Char) : Option (List Char) :=
  if (l.take n).length = n && (l.take n).all Char.isDigit then some (l.drop n)
  else none

/-! ## Contact extraction (`extractContact`) -/

def isLocalChar (c : Char) : Bool :=
  c.isAlpha || c.isDigit || c = '.' || c = '_' || c = '%' || c = '+' || c = '-'

def isDomainChar (c : Char) : Bool := c.isAlpha || c.isDigit || c = '.' || c = '-'

/-- Backtracking split of the greedy `[a-zA-Z0-9.-]+\.[a-zA-Z]{2,}` domain
run: the last `.` followed by at least two letters wins. -/
def emailDomSplit : List Char → Option (List Char × List Char × List Char)
  | [] => none
  | c :: cs =>
    match emailDomSplit cs with
    | some (pre, tld, rest) => some (c :: pre, tld, rest)
    | none =>
      if c = '.' then
        let tld := cs.takeWhile Char.isAlpha
        if 2 ≤ tld.length then some ([], tld, cs.drop tld.length) else none
      else none

/-- `([a-zA-Z0-9._%+-]+@[a-zA-Z0-9.-]+\.[a-zA-Z]{2,})` at the current
position. -/
def emailAt (l : List Char) : Option (List Char × List Char) :=
  let loc := l.takeWhile isLocalChar
  if loc.isEmpty then none
  else
    match l.drop loc.length with
    | '@' :: rest =>
      let d := rest.takeWhile isDomainChar
      match emailDomSplit d with
      | some (pre, tld, drest) =>
        if pre.isEmpty then none
        else some (loc ++ '@' :: (pre ++ '.' :: tld), drest ++ rest.drop d.length)
      | none => none
    | _ => none

/-- `\\?\s*\underline{([^}]+)}` after an icon literal. -/
def faUnderlineCapAt (fa l : List Char) : Option (List Char) := do
  let r ← litP fa l
  optCharP (fun c => c = '\\') (fun r2 => litBraceCapAt (S "\\underline" ++ [ '{' ]) (wsP r2)) r

def isPhoneCls (c : Char) : Bool :=
  c = '+' || c.isDigit || isWsChar c || c = '-' || c = '(' || c = ')'

/-- `\faPhone\\?\s*([+\d\s\-()]+)`. -/
def faPhoneAt (l : List Char) : Option (List Char × List Char) := do
  let r ← litP (S "\\faPhone") l
  optCharP (fun c => c = '\\') (fun r2 => wsThenPlus isPhoneCls r2) r

/-- `\raisebox{[^}]*}\faPhone\\?\s*([+\d\s\-()]+)`. -/
def raiseboxPhoneAt (l : List Char) : Option (List Char × List Char) := do
  let r ← litP (S "\\raisebox" ++ [ '{' ]) l
  let (_, r2) ← firstBraceSplit r
  faPhoneAt r2

/-- `(\+91\s*\d{5}\s*\d{5})`. -/
def indiaPhoneAt (l : List Char) : Option (List Char × List Char) := do
  let r ← litP (S "+91") l
  let r ← digitsN 5 (wsP r)
  let r ← digitsN 5 (wsP r)
  return (l.take (l.length - r.length), r)

def isSepChar (c : Char) : Bool := c = '-' || c = '.' || isWsChar c

/-- `(\+?1?[-.\s]?\(?[0-9]{3}\)?[-.\s]?[0-9]{3}[-.\s]?[0-9]{4})`. -/
def usPhoneAt (l : List Char) : Option (List Char × List Char) :=
  let rest? :=
    optCharP (fun c => c = '+') (fun r1 =>
      optCharP (fun c => c = '1') (fun r2 =>
        optCharP isSepChar (fun r3 =>
          optCharP (fun c => c = '(') (fun r4 =>
            (digitsN 3 r4).bind (fun r5 =>
              optCharP (fun c => c = ')') (fun r6 =>
                optCharP isSepChar (fun r7 =>
                  (digitsN 3 r7).bind (fun r8 =>
                    optCharP isSepChar (fun r9 => digitsN 4 r9) r8)) r6) r5)) r3) r2) r1) l
  match rest? with
  | some rest => some (l.take (l.length - rest.length), rest)
  | none => none

/-- `linkedin.com/in/([^}\s]+)` tail: a nonempty run of non-`}`,
non-whitespace characters. -/
def urlTailCap (l : List Char) : Option (List Char) :=
  let cap := l.takeWhile (fun c => !(c = '}') && !(isWsChar c))
  if cap.isEmpty then none else some cap

/-- `\href{https?://host/…([^}]+)}`. -/
def hrefCapAt (tail l : List Char) : Option (List Char) := do
  let r ← litP (S "\\href" ++ [ '{' ] ++ S "http") l
  optCharP (fun c => c = 's') (fun r2 => do
    let r3 ← litP tail r2
    let (cap, _) ← braceCap1 r3
    return cap) r

structure Contact where
  email : Option (List Char) := none
  phone : Option (List Char) := none
  address : Option (List Char) := none
  linkedin : Option (List Char) := none
  github : Option (List Char) := none
deriving DecidableEq, Repr

/-- Embedding of `extractContact`: each contact field is tried against its
own ordered pattern list, first match wins. -/
def extractContact (latex : List Char) : Contact :=
  let email := firstSome
    [ scanFirst (litBraceCapAt (S "\\email" ++ [ '{' ])) latex,
      scanFirst (litBraceCapAt (S "\\href" ++ [ '{' ] ++ S "mailto:")) latex,
      scanFirst (faUnderlineCapAt (S "\\faEnvelope")) latex,
      scanFirst (fun l => do
        let r ← litP (S "Email:") l
        litBraceCapAt (S "\\href" ++ [ '{' ] ++ S "mailto:") (wsP r)) latex,
      scanFirst (fun l => do
        let r ← litP (S "Email:") l
        let (cap, _) ← emailAt (wsP r)
        return cap) latex,
      scanFirst (fun l => (emailAt l).map (·.1)) latex ]
  let phone := firstSome
    [ scanFirst (litBraceCapAt (S "\\phone" ++ [ '{' ])) latex,
      scanFirst (fun l => do
        let r ← litP (S "\\phone[") l
        let (_, r2) ← firstSplitOn ']' r
        litBraceCapAt [ '{' ] r2) latex,
      scanFirst (fun l => (faPhoneAt l).map (·.1)) latex,
      scanFirst (fun l => (raiseboxPhoneAt l).map (·.1)) latex,
      scanFirst (fun l => (indiaPhoneAt l).map (·.1)) latex,
      scanFirst (fun l => (usPhoneAt l).map (·.1)) latex ]
  let address := firstSome
    [ scanFirst (litBraceCapAt (S "\\address" ++ [ '{' ])) latex,
      scanFirst (litBraceCapAt (S "\\location" ++ [ '{' ])) latex ]
  let linkedin := firstSome
    [ scanFirst (litBraceCapAt (S "\\social[linkedin]" ++ [ '{' ])) latex,
      scanFirst (litBraceCapAt (S "\\linkedin" ++ [ '{' ])) latex,
      scanFirst (faUnderlineCapAt (S "\\faLinkedin")) latex,
      scanFirst (hrefCapAt (S "://linkedin.com/in/")) latex,
      scanFirst (fun l => do
        let r ← litP (S "LinkedIn:") l
        let r2 ← litP (S "linkedin.com/in/") (wsP r)
        urlTailCap r2) latex,
      scanFirst (fun l => do
        let r ← litP (S "linkedin.com/in/") l
        urlTailCap r) latex ]
  let github := firstSome
    [ scanFirst (faUnderlineCapAt (S "\\faGithub")) latex,
      scanFirst (hrefCapAt (S "://github.com/")) latex,
      scanFirst (fun l => do
        let r ← litP (S "GitHub:") l
        let r2 ← litP (S "github.com/") (wsP r)
        urlTailCap r2) latex,
      scanFirst (fun l => do
        let r ← litP (S "github.com/") l
        urlTailCap r) latex ]
  { email := email, phone := phone.map trimL, address := address,
    linkedin := linkedin, github := github }

/-! ## Name and title extraction -/

/-- `\s*(?:\scshape|\bfseries)?\s*([^}]+)` applied to the span `w` standing
before an already-located closing `}`, with the JS backtracking behaviour
when the span is whitespace-only or ends right after the style literal. -/
def centerInnerCap (w : List Char) : Option (List Char) :=
  let a := w.takeWhile isWsChar
  let rest := w.drop a.length
  match (litP (S "\\scshape") rest).orElse (fun _ => litP (S "\\bfseries") rest) with
  | some r2 =>
    let b := r2.takeWhile isWsChar
    let r3 := r2.drop b.length
    if !r3.isEmpty then some r3
    else if !b.isEmpty then some [b.getLastD ' ']
    else some rest
  | none =>
    if !rest.isEmpty then some rest
    else if !a.isEmpty then some [a.getLastD ' ']
    else none

/-- `\s*([^}]+)}` at the current position (the `}` must exist). -/
def wsCap1BraceAt (l : List Char) : Option (List Char) :=
  match firstBraceSplit l with
  | some (w, _) =>
    let a := w.takeWhile isWsChar
    if a.length < w.length then some (w.drop a.length)
    else if !w.isEmpty then some [w.getLastD ' ']
    else none
  | none => none

/-- `([A-Z][a-z]+\s+[A-Z][a-z]+)` at the current position. -/
def capPairAt (l : List Char) : Option (List Char) :=
  match l with
  | [] => none
  | c :: cs =>
    if c.isUpper then
      let r1 := cs.takeWhile Char.isLower
      if r1.isEmpty then none
      else
        let rest1 := cs.drop r1.length
        let sp := rest1.takeWhile isWsChar
        if sp.isEmpty then none
        else
          match rest1.drop sp.length with
          | [] => none
          | d :: ds =>
            if d.isUpper then
              let r2 := ds.takeWhile Char.isLower
              if r2.isEmpty then none else some (c :: r1 ++ sp ++ d :: r2)
            else none
    else none

def nameKeywords : List (List Char) :=
  [S "John", S "Jane", S "Mr.", S "Ms.", S "Dr."]

/-- The 14 ordered name patterns of `extractName`, each as an at-position
matcher returning the capture group. -/
def namePatternsAt : List (List Char → Option (List Char)) :=
  [ litBraceCapAt (S "\\name" ++ [ '{' ]),
    litBraceCapAt (S "\\author" ++ [ '{' ]),
    fun l => do
      let r ← litP ([ '{' ] ++ S "\\LARGE\\textbf" ++ [ '{' ]) l
      let (cap, r2) ← braceCap1 r
      let _ ← litP [ '}' ] r2
      return cap,
    litBraceCapAt (S "\\LARGE\\textbf" ++ [ '{' ]),
    fun l => do
      let r ← litP (S "\\centerline" ++ [ '{' ] ++ S "\\huge") l
      let r2 ← litP (S "\\bfseries") (wsP r)
      wsCap1BraceAt r2,
    fun l => do
      let r ← litP (S "\\centerline" ++ [ '{' ] ++ S "\\huge") l
      let r2 ← litP (S "\\scshape") (wsP r)
      wsCap1BraceAt r2,
    fun l => do
      let r ← litP (S "\\begin{center}") l
      scanFirst (fun l2 => do
        let r2 ← litP ([ '{' ] ++ S "\\Huge") l2
        let r3 ← litP (S "\\scshape") (wsP r2)
        wsCap1BraceAt r3) r,
    fun l => do
      let r ← litP (S "\\begin{center}") l
      scanFirst (fun l2 => do
        let r2 ← litP ([ '{' ] ++ S "\\huge") l2
        let r3 ← litP (S "\\bfseries") (wsP r2)
        wsCap1BraceAt r3) r,
    fun l => do
      let r ← ciLitP (S "\\textbf" ++ [ '{' ]) l
      let (cap, _) ← braceCap1 r
      if nameKeywords.any (fun k => ciContains k cap) then some cap else none,
    fun l => do
      let r ← litP (S "\\large") l
      litBraceCapAt (S "\\textbf" ++ [ '{' ]) (wsP r),
    fun l => do
      let r ← litP (S "\\LARGE") l
      ((wsThenPlus (fun c => !(c = '\\')) r).map (·.1)),
    fun l => do
      let r ← litP (S "\\huge") l
      ((wsThenPlus (fun c => !(c = '\\')) r).map (·.1)),
    fun l => do
      let r ← litP (S "\\Huge") l
      let r2 ← litP (S "\\scshape") (wsP r)
      ((wsThenPlus (fun c => !(c = '\\')) r2).map (·.1)),
    fun l => do
      let r ← litP (S "\\huge") l
      let r2 ← litP (S "\\bfseries") (wsP r)
      ((wsThenPlus (fun c => !(c = '\\')) r2).map (·.1)) ]

/-- The pattern-loop stage of `extractName`: first pattern whose leftmost
match has a nonempty trimmed group wins; a pattern matching with a
whitespace-only group is skipped. -/
def nameFromPatterns (latex : List Char) : Option (List Char) :=
  firstSome (namePatternsAt.map (fun m =>
    match scanFirst m latex with
    | some cap => if (trimL cap).isEmpty then none else some (trimL cap)
    | none => none))

/-- Center-environment stage: the content between the first
`\begin{center}` and the next `\end{center}`, searched for a
`{\Huge|\huge|\LARGE|\Large …}` group. -/
def nameFromCenterEnv (latex : List Char) : Option (List Char) := do
  let (centerContent, _) ← scanFirst (fun l => do
    let r ← litP (S "\\begin{center}") l
    lazyUntilLit (S "\\end{center}") r) latex
  let cap ← scanFirst (fun l => do
    let r ← firstSome
      [ litP ([ '{' ] ++ S "\\Huge") l, litP ([ '{' ] ++ S "\\huge") l,
        litP ([ '{' ] ++ S "\\LARGE") l, litP ([ '{' ] ++ S "\\Large") l ]
    let (w, _) ← firstBraceSplit r
    centerInnerCap w) centerContent
  return trimL cap

/-- Centerline stage: `\centerline{[^}]*?([A-Z][a-z]+\s+[A-Z][a-z]+)[^}]*}`. -/
def nameFromCenterline (latex : List Char) : Option (List Char) :=
  (scanFirst (fun l => do
    let r ← litP (S "\\centerline" ++ [ '{' ]) l
    let (w, _) ← firstBraceSplit r
    scanFirst capPairAt w) latex).map trimL

/-- `line.replace(/\\[a-zA-Z]+\*?\{?/g, '')`: strip command tokens (with
optional star and opening brace). -/
def cmdTokGo : Nat → List Char → List Char
  | _, [] => []
  | n + 1, _ :: cs => cmdTokGo n cs
  | 0, c :: cs =>
    if c = '\\' then
      let letters := cs.takeWhile Char.isAlpha
      if letters.isEmpty then c :: cmdTokGo 0 cs
      else
        let rest1 := cs.drop letters.length
        let starLen := if rest1.head? = some '*' then 1 else 0
        let rest2 := rest1.drop starLen
        let braceLen := if rest2.head? = some '{' then 1 else 0
        cmdTokGo (letters.length + starLen + braceLen) cs
    else c :: cmdTokGo 0 cs

/-- `line.replace(/\\[a-zA-Z]+\{?/g, '')`: the no-star variant used by the
education/projects cleaners. -/
def cmdTokNSGo : Nat → List Char → List Char
  | _, [] => []
  | n + 1, _ :: cs => cmdTokNSGo n cs
  | 0, c :: cs =>
    if c = '\\' then
      let letters := cs.takeWhile Char.isAlpha
      if letters.isEmpty then c :: cmdTokNSGo 0 cs
      else
        let rest1 := cs.drop letters.length
        let braceLen := if rest1.head? = some '{' then 1 else 0
        cmdTokNSGo (letters.length + braceLen) cs
    else c :: cmdTokNSGo 0 cs

/-- `.replace(/\\[a-zA-Z]+\*?\{?/g, '').replace(/\}/g, '').trim()`. -/
def cleanLatexLine (line : List Char) : List Char :=
  trimL ((cmdTokGo 0 line).filter (fun c => !(c = '}')))

/-- The no-star variant of the line cleaner. -/
def cleanLatexLineNS (line : List Char) : List Char :=
  trimL ((cmdTokNSGo 0 line).filter (fun c => !(c = '}')))

/-- `^[A-Z][a-z]+ [A-Z][a-z]+` anchored test (a literal single space). -/
def capStartPair (l : List Char) : Bool :=
  match l with
  | [] => false
  | c :: cs =>
    if c.isUpper then
      let r1 := cs.takeWhile Char.isLower
      if r1.isEmpty then false
      else
        match cs.drop r1.length with
        | ' ' :: d :: ds => d.isUpper && !(ds.takeWhile Char.isLower).isEmpty
        | _ => false
    else false

/-- Final heuristic of `extractName`: scan the first 15 lines for a cleaned
line starting with a capitalised word pair, returning its first two
space-separated words. -/
def nameFromLines (latex : List Char) : Option (List Char) :=
  ((splitOnChar '\n' latex).take 15).foldr
    (fun line acc =>
      let cl := cleanLatexLine line
      if capStartPair cl then
        some (List.intercalate (S " ") ((splitOnChar ' ' cl).take 2))
      else acc)
    none

/-- Embedding of `extractName`: ordered strategies with final placeholder
`"Resume Preview"`. -/
def extractName (latex : List Char) : List Char :=
  match nameFromPatterns latex with
  | some n => n
  | none =>
    match nameFromCenterEnv latex with
    | some n => n
    | none =>
      match nameFromCenterline latex with
      | some n => n
      | none =>
        match nameFromLines latex with
        | some n => n
        | none => S "Resume Preview"

def titleKeywords : List (List Char) :=
  [S "Engineer", S "Developer", S "Manager", S "Analyst", S "Designer"]

/-- Embedding of `extractTitle`. -/
def extractTitle (latex : List Char) : List Char :=
  let pats : List (List Char → Option (List Char)) :=
    [ litBraceCapAt (S "\\title" ++ [ '{' ]),
      litBraceCapAt (S "\\subtitle" ++ [ '{' ]),
      fun l => do
        let r ← ciLitP (S "\\textit" ++ [ '{' ]) l
        let (cap, _) ← braceCap1 r
        if titleKeywords.any (fun k => ciContains k cap) then some cap else none,
      fun l => do
        let r ← ciLitP (S "\\emph" ++ [ '{' ]) l
        let (cap, _) ← braceCap1 r
        if titleKeywords.any (fun k => ciContains k cap) then some cap else none ]
  match firstSome (pats.map (fun m =>
    match scanFirst m latex with
    | some cap => if (trimL cap).isEmpty then none else some (trimL cap)
    | none => none)) with
  | some t => t
  | none => []

/-! ## Section segmentation (`extractAllSections`) -/

structure RawSection where
  title : List Char
  content : List Char
deriving DecidableEq, Repr

/-- `\section*?{([^}]+)}([\s\S]*?)(?=\section|\end{document}|$)` at the
current position. -/
def sectionAt (l : List Char) : Option (RawSection × List Char) := do
  let r ← litP (S "\\section") l
  optCharP (fun c => c = '*') (fun r2 => do
    let r3 ← litP [ '{' ] r2
    let (title, r4) ← braceCap1 r3
    let (body, rest) := lazyUntil [S "\\section", S "\\end{document}"] r4
    return ({ title := title, content := trimL body }, rest)) r

/-- The `\subsection` variant, whose lookahead also stops at `\subsection`. -/
def subsectionAt (l : List Char) : Option (RawSection × List Char) := do
  let r ← litP (S "\\subsection") l
  optCharP (fun c => c = '*') (fun r2 => do
    let r3 ← litP [ '{' ] r2
    let (title, r4) ← braceCap1 r3
    let (body, rest) :=
      lazyUntil [S "\\section", S "\\subsection", S "\\end{document}"] r4
    return ({ title := title, content := trimL body }, rest)) r

def extractAllSections (latex : List Char) : List RawSection :=
  scanAllL sectionAt latex ++ scanAllL subsectionAt latex

/-! ## Experience parsing (`parseExperienceSection`) -/

structure ExpEntry where
  company : Option (List Char) := none
  period : Option (List Char) := none
  position : Option (List Char) := none
  location : Option (List Char) := none
  details : Option (List Char) := none
deriving DecidableEq, Repr

/-- `{([^}]*)}` at the current position (possibly-empty capture). -/
def braceArg0 (l : List Char) : Option (List Char × List Char) := do
  let r ← litP [ '{' ] l
  firstBraceSplit r

/-- `\resumeSubheading\s*{Company}\s*{Date}\s*{Position}\s*{Location}`. -/
def resumeSubheadingAt (l : List Char) : Option (ExpEntry × List Char) := do
  let r ← litP (S "\\resumeSubheading") l
  let (g1, r) ← braceArg0 (wsP r)
  let (g2, r) ← braceArg0 (wsP r)
  let (g3, r) ← braceArg0 (wsP r)
  let (g4, r) ← braceArg0 (wsP r)
  return ({ company := some g1, period := some g2, position := some g3,
            location := some g4 }, r)

/-- `\cventry{..}{..}{..}{..}{..}` — five adjacent groups. -/
def cventryAt (l : List Char) :
    Option ((List Char × List Char × List Char × List Char × List Char) × List Char) := do
  let r ← litP (S "\\cventry") l
  let (g1, r) ← braceArg0 r
  let (g2, r) ← braceArg0 r
  let (g3, r) ← braceArg0 r
  let (g4, r) ← braceArg0 r
  let (g5, r) ← braceArg0 r
  return ((g1, g2, g3, g4, g5), r)

/-- `\(?:experience|job|position){..}{..}{..}{..}`. -/
def jobAt (l : List Char) : Option (ExpEntry × List Char) := do
  let r ← firstSome
    [litP (S "\\experience") l, litP (S "\\job") l, litP (S "\\position") l]
  let (g1, r) ← braceArg0 r
  let (g2, r) ← braceArg0 r
  let (g3, r) ← braceArg0 r
  let (g4, r) ← braceArg0 r
  return ({ position := some g1, company := some g2, period := some g3,
            location := some g4 }, r)

/-- `[0-9]{4}[\-\s]*[0-9]{4}|Present|Current` at the current position. -/
def yearAltAt (l : List Char) : Option (List Char × List Char) :=
  (do
    let r ← digitsN 4 l
    let sep := r.takeWhile (fun c => c = '-' || isWsChar c)
    let r2 ← digitsN 4 (r.drop sep.length)
    return (l.take (l.length - r2.length), r2)).orElse fun _ =>
  ((litP (S "Present") l).map (fun r => (S "Present", r))).orElse fun _ =>
  (litP (S "Current") l).map (fun r => (S "Current", r))

/-- `\textbf{([^}]+)}[\s\S]*?\textit{([^}]+)}[\s\S]*?(year|Present|Current)`. -/
def textbfExpAt (l : List Char) : Option (ExpEntry × List Char) := do
  let r ← litP (S "\\textbf" ++ [ '{' ]) l
  let (g1, r) ← braceCap1 r
  let ((g2, g3), rest) ← scanFirst (fun l2 => do
    let r2 ← litP (S "\\textit" ++ [ '{' ]) l2
    let (g2, r3) ← braceCap1 r2
    let (g3, rest) ← scanFirst yearAltAt r3
    return ((g2, g3), rest)) r
  return ({ position := some g1, company := some g2, period := some g3,
            location := some [] }, rest)

def roleKeywords : List (List Char) :=
  [S "Engineer", S "Developer", S "Manager", S "Analyst", S "Designer",
   S "Intern", S "Organizer", S "Participant"]

/-- `/[0-9]{4}/` substring test. -/
def hasDigitRun4 : List Char → Bool
  | [] => false
  | c :: cs => (digitsN 4 (c :: cs)).isSome || hasDigitRun4 cs

structure HeurState where
  position : Option (List Char) := none
  company : Option (List Char) := none
  period : Option (List Char) := none
deriving DecidableEq, Repr

/-- One line of the plain-text experience fallback: classify the cleaned
line, then flush the in-progress entry once both position and company are
set. -/
def heurStep (acc : HeurState × List ExpEntry) (line : List Char) :
    HeurState × List ExpEntry :=
  let (st, out) := acc
  let cl := cleanLatexLine line
  if cl.isEmpty then (st, out)
  else
    let st :=
      if hasDigitRun4 cl then { st with period := some cl }
      else if roleKeywords.any (fun k => ciContains k cl) then
        { st with position := some cl }
      else if st.position.isSome && !st.company.isSome then
        { st with company := some cl }
      else st
    if st.position.isSome && st.company.isSome then
      ({}, out ++ [{ position := st.position, company := st.company,
                     period := st.period }])
    else (st, out)

/-- Embedding of `parseExperienceSection`: four structured patterns in
order, then the line-by-line heuristic when none matched. -/
def parseExperienceSection (content : List Char) : List ExpEntry :=
  let e1 := scanAllL resumeSubheadingAt content
  let e2 := (scanAllL cventryAt content).map (fun g =>
    { period := some g.1, position := some g.2.1, company := some g.2.2.1,
      location := some g.2.2.2.1, details := some g.2.2.2.2 })
  let e3 := scanAllL jobAt content
  let e4 := scanAllL textbfExpAt content
  let es := e1 ++ e2 ++ e3 ++ e4
  if es.isEmpty then
    ((splitOnChar '\n' content).foldl heurStep ({}, [])).2
  else es

/-! ## Education parsing (`parseEducationSection`) -/

structure EduEntry where
  period : Option (List Char) := none
  degree : Option (List Char) := none
  institution : Option (List Char) := none
  location : Option (List Char) := none
  gpa : Option (List Char) := none
deriving DecidableEq, Repr

/-- `\education{..}{..}{..}{..}`. -/
def educationAt (l : List Char) :
    Option ((List Char × List Char × List Char × List Char) × List Char) := do
  let r ← litP (S "\\education") l
  let (g1, r) ← braceArg0 r
  let (g2, r) ← braceArg0 r
  let (g3, r) ← braceArg0 r
  let (g4, r) ← braceArg0 r
  return ((g1, g2, g3, g4), r)

def eduKeywords : List (List Char) :=
  [S "Bachelor", S "Master", S "PhD", S "Degree", S "University", S "College"]

/-- Embedding of `parseEducationSection`. -/
def parseEducationSection (content : List Char) : List EduEntry :=
  let d1 := (scanAllL cventryAt content).map (fun g =>
    { period := some g.1, degree := some g.2.1, institution := some g.2.2.1,
      location := some g.2.2.2.1, gpa := some g.2.2.2.2 : EduEntry })
  let d2 := (scanAllL educationAt content).map (fun g =>
    { period := some g.1, degree := some g.2.1, institution := some g.2.2.1,
      location := some g.2.2.2, gpa := some [] : EduEntry })
  let ed := d1 ++ d2
  if ed.isEmpty then
    (splitOnChar '\n' content).foldl (fun acc line =>
      let cl := cleanLatexLineNS line
      if eduKeywords.any (fun k => ciContains k cl) then
        acc ++ [{ degree := some cl, institution := some [], period := some [],
                  location := some [], gpa := some [] : EduEntry }]
      else acc) []
  else ed

/-! ## Skills parsing (`parseSkillsSection`) -/

structure SkillGroup where
  category : List Char
  items : List Char
deriving DecidableEq, Repr

/-- `\cvitem{([^}]*)}{([^}]*)}`. -/
def cvitemAt (l : List Char) : Option (SkillGroup × List Char) := do
  let r ← litP (S "\\cvitem") l
  let (g1, r) ← braceArg0 r
  let (g2, r) ← braceArg0 r
  return ({ category := g1, items := g2 }, r)

/-- `\skill{([^}]*)}{([^}]*)}`. -/
def skillCmdAt (l : List Char) : Option (SkillGroup × List Char) := do
  let r ← litP (S "\\skill") l
  let (g1, r) ← braceArg0 r
  let (g2, r) ← braceArg0 r
  return ({ category := g1, items := g2 }, r)

/-- `\begin{tabularx}[\s\S]*?\textbf{([^}]+)}:\s*([^&\\]+)` with an optional
`&`-separated second category; whitespace belongs to the `[^&\\]` class, so
a whitespace-only run makes `\s*` back off one character into the group. -/
def tabularxAt (l : List Char) :
    Option ((List Char × List Char × Option (List Char × List Char)) × List Char) := do
  let r ← litP (S "\\begin{tabularx}") l
  scanFirst (fun l2 => do
    let r2 ← litP (S "\\textbf" ++ [ '{' ]) l2
    let (g1, r3) ← braceCap1 r2
    let r4 ← litP [ ':' ] r3
    let (g2, r6) ← wsThenPlus (fun c => !(c = '&') && !(c = '\\')) r4
    match (do
      let r7 ← litP [ '&' ] r6
      let r8 ← litP (S "\\textbf" ++ [ '{' ]) (wsP r7)
      let (g3, r9) ← braceCap1 r8
      let r10 ← litP [ ':' ] r9
      let (g4, rest) ← wsThenPlus (fun c => !(c = '&') && !(c = '\\')) r10
      return ((g3, g4), rest)) with
    | some (p, rest) => some ((g1, g2, some p), rest)
    | none => some ((g1, g2, none), r6)) r

/-- `\item\s+([^\\\n]+)` at the current position, returning the stripped,
trimmed item text (the JS code strips a fresh greedy `\item\s+` from each
full match, so a backtracked whitespace-only capture strips to the empty
item).  When the run after the whitespace starts with a backslash or ends
the input, `\s+` backs off to the last non-newline whitespace character at
index at least one, which becomes the one-character capture. -/
def itemFullAt (l : List Char) : Option (List Char × List Char) := do
  let r ← litP (S "\\item") l
  let ws1 := r.takeWhile isWsChar
  if ws1.isEmpty then none
  else
    let r2 := r.drop ws1.length
    let cap := r2.takeWhile (fun c => !(c = '\\') && !(c = '\n'))
    if cap.isEmpty then
      match (List.range ws1.length).foldl
          (fun acc k =>
            if 1 ≤ k ∧ ¬ ws1.getD k '\n' = '\n' then some k else acc) none with
      | some k => some ([], r.drop (k + 1))
      | none => none
    else some (trimL cap, r2.drop cap.length)

/-- `\begin{itemize}([\s\S]*?)\end{itemize}`, packaging the item texts
joined by `", "` (or `none` when the body has no `\item` match). -/
def itemizeAt (l : List Char) : Option (Option (List Char) × List Char) := do
  let r ← litP (S "\\begin{itemize}") l
  let (body, rest) ← lazyUntilLit (S "\\end{itemize}") r
  let items := scanAllL itemFullAt body
  if items.isEmpty then return (none, rest)
  else return (some (List.intercalate (S ", ") items), rest)

/-- `\textbf{([^}]+)}:\s*([^\\]+)`. -/
def textbfSkillAt (l : List Char) : Option (SkillGroup × List Char) := do
  let r ← litP (S "\\textbf" ++ [ '{' ]) l
  let (g1, r) ← braceCap1 r
  let r ← litP [ ':' ] r
  let (g2, rest) ← wsThenPlus (fun c => !(c = '\\')) r
  return ({ category := trimL g1,
            items := replaceAllL (S "\\\\") [] (trimL g2) }, rest)

/-- Embedding of `parseSkillsSection`. -/
def parseSkillsSection (content : List Char) : List SkillGroup :=
  let s1 := scanAllL cvitemAt content
  let s2 := scanAllL skillCmdAt content
  let s3 := (scanAllL tabularxAt content).foldl (fun acc g =>
    let base := acc ++ [{ category := trimL g.1, items := trimL g.2.1 : SkillGroup }]
    match g.2.2 with
    | some (g3, g4) =>
      base ++ [{ category := trimL g3, items := trimL g4 : SkillGroup }]
    | none => base) []
  let s4 := (scanAllL itemizeAt content).foldl (fun acc o =>
    match o with
    | some items => acc ++ [{ category := S "Skills", items := items : SkillGroup }]
    | none => acc) []
  let s5 := scanAllL textbfSkillAt content
  let sk := s1 ++ s2 ++ s3 ++ s4 ++ s5
  if sk.isEmpty then
    (splitOnChar '\n' content).foldl (fun acc line =>
      let cl := cleanLatexLine line
      if containsSubL [ ':' ] cl then
        let parts := splitOnChar ':' cl
        acc ++ [{ category := trimL (parts.headD []),
                  items := match parts with
                    | _ :: p1 :: _ => if p1.isEmpty then [] else trimL p1
                    | _ => [] : SkillGroup }]
      else acc) []
  else sk

/-! ## Projects parsing (`parseProjectsSection`) -/

structure ProjEntry where
  name : List Char
  date : Option (List Char) := none
  description : List Char := []
deriving DecidableEq, Repr

/-- `.replace(/\\textbf\{([^}]+)\}/g, '$1')`: unwrap bold groups. -/
def unwrapTextbfGo : Nat → List Char → List Char
  | _, [] => []
  | n + 1, _ :: cs => unwrapTextbfGo n cs
  | 0, c :: cs =>
    match (do
      let r ← litP (S "\\textbf" ++ [ '{' ]) (c :: cs)
      braceCap1 r) with
    | some (cap, rest) =>
      cap ++ unwrapTextbfGo ((c :: cs).length - rest.length - 1) cs
    | none => c :: unwrapTextbfGo 0 cs

/-- `\resumeProjectHeading\s*{([^}]*)}\s*{([^}]*)}`. -/
def resumeProjectHeadingAt (l : List Char) : Option (ProjEntry × List Char) := do
  let r ← litP (S "\\resumeProjectHeading") l
  let (g1, r) ← braceArg0 (wsP r)
  let (g2, r) ← braceArg0 (wsP r)
  return ({ name := cleanLatexLineNS (unwrapTextbfGo 0 g1),
            date := some (cleanLatexLineNS g2), description := [] }, r)

/-- `\item\s+\textbf{([^}]+)}\s*([\s\S]*?)(?=\item|\end{itemize}|$)`. -/
def itemProjAt (l : List Char) : Option (ProjEntry × List Char) := do
  let r ← litP (S "\\item") l
  let ws1 := r.takeWhile isWsChar
  if ws1.isEmpty then none
  else do
    let r2 ← litP (S "\\textbf" ++ [ '{' ]) (r.drop ws1.length)
    let (g1, r3) ← braceCap1 r2
    let (g2, rest) := lazyUntil [S "\\item", S "\\end{itemize}"] (wsP r3)
    return ({ name := trimL g1, date := none,
              description := (cleanLatexLineNS g2).take 200 }, rest)

/-- Embedding of `parseProjectsSection` (also reused for achievements). -/
def parseProjectsSection (content : List Char) : List ProjEntry :=
  let p1 := scanAllL resumeProjectHeadingAt content
  if !p1.isEmpty then p1
  else
    let p2 := scanAllL itemProjAt content
    if !p2.isEmpty then p2
    else
      (splitOnChar '\n' content).foldl (fun acc line =>
        let cl := cleanLatexLine line
        if 10 < cl.length && !containsSubL (S "resumeItem") cl then
          acc ++ [{ name := cl, date := none, description := [] : ProjEntry }]
        else acc) []

/-! ## `parseLatexContent` -/

structure ResumeSections where
  name : List Char
  title : List Char
  contact : Contact
  summary : List Char
  experience : List ExpEntry
  education : List EduEntry
  skills : List SkillGroup
  projects : List ProjEntry
  achievements : List ProjEntry
  rawSections : List RawSection
deriving DecidableEq, Repr

/-- The `forEach` classification pass of `parseLatexContent`: each matching
section assigns (overwrites) its category's field. -/
def categorizeStep (acc : ResumeSections) (sec : RawSection) : ResumeSections :=
  let lt := toLowerL sec.title
  if containsSubL (S "summary") lt || containsSubL (S "objective") lt ||
      containsSubL (S "profile") lt then
    { acc with summary := sec.content }
  else if containsSubL (S "experience") lt || containsSubL (S "work") lt ||
      containsSubL (S "employment") lt then
    { acc with experience := parseExperienceSection sec.content }
  else if containsSubL (S "education") lt || containsSubL (S "academic") lt then
    { acc with education := parseEducationSection sec.content }
  else if containsSubL (S "skill") lt || containsSubL (S "technical") lt ||
      containsSubL (S "competenc") lt then
    { acc with skills := parseSkillsSection sec.content }
  else if containsSubL (S "project") lt then
    { acc with projects := parseProjectsSection sec.content }
  else if containsSubL (S "achievement") lt || containsSubL (S "award") lt ||
      containsSubL (S "honor") lt then
    { acc with achievements := parseProjectsSection sec.content }
  else acc

/-- Embedding of `parseLatexContent`: header extraction, generic section
segmentation, then per-section classification. -/
def parseLatexContent (latex : List Char) : ResumeSections :=
  let allSections := extractAllSections latex
  allSections.foldl categorizeStep
    { name := extractName latex, title := extractTitle latex,
      contact := extractContact latex, summary := [], experience := [],
      education := [], skills := [], projects := [], achievements := [],
      rawSections := allSections }

/-! ## Fallback document renderer (`generatePDFWithPDFKit` with jsPDF) -/

def toUpperL (l : List Char) : List Char := l.map Char.toUpper

/-- JS truthiness of an optional string field (`undefined` and `''` are
falsy). -/
def truthy (o : Option (List Char)) : Bool :=
  match o with
  | some s => !s.isEmpty
  | none => false

/-- `x || ''`. -/
def orEmpty (o : Option (List Char)) : List Char := o.getD []

/-- The jsPDF document state: the sequence of drawn text strings and the
running vertical position. -/
structure DocState where
  texts : List (List Char)
  yPos : Nat
deriving DecidableEq, Repr

def drawText (d : DocState) (t : List Char) : DocState :=
  { d with texts := d.texts ++ [t] }

def bumpY (d : DocState) (n : Nat) : DocState := { d with yPos := d.yPos + n }

def rawSkipWords : List (List Char) :=
  [S "summary", S "experience", S "education", S "skill", S "project",
   S "achievement", S "award", S "honor"]

/-- `sections.name || 'Resume Preview'` — the header name drawn first. -/
def headerNameText (sections : ResumeSections) : List Char :=
  if sections.name.isEmpty then S "Resume Preview" else sections.name

/-- Header part of `generatePDFWithPDFKit`: name, optional title, contact
lines. -/
def renderHeader (sections : ResumeSections) (d : DocState) : DocState :=
  let nameTxt := headerNameText sections
  let d1 := bumpY (drawText d nameTxt) 15
  let d2 :=
    if !sections.title.isEmpty then bumpY (drawText d1 sections.title) 12 else d1
  let d3 :=
    if truthy sections.contact.email then
      bumpY (drawText d2 (S "Email: " ++ orEmpty sections.contact.email)) 8
    else d2
  let d4 :=
    if truthy sections.contact.phone then
      bumpY (drawText d3 (S "Phone: " ++ orEmpty sections.contact.phone)) 8
    else d3
  if truthy sections.contact.address then
    bumpY (drawText d4 (S "Location: " ++ orEmpty sections.contact.address)) 12
  else d4

def renderWrapped (wrap : List Char → List (List Char)) (t : List Char)
    (d : DocState) : DocState :=
  (wrap t).foldl (fun d ln => bumpY (drawText d ln) 6) d

def renderSummary (sections : ResumeSections)
    (wrap : List Char → List (List Char)) (d : DocState) : DocState :=
  if !sections.summary.isEmpty then
    bumpY (renderWrapped wrap sections.summary
      (bumpY (drawText (bumpY d 5) (S "PROFESSIONAL SUMMARY")) 10)) 8
  else d

def renderExperience (sections : ResumeSections) (d : DocState) : DocState :=
  if !sections.experience.isEmpty then
    (sections.experience.take 3).foldl (fun d exp =>
      bumpY (drawText (bumpY (drawText d (orEmpty exp.position)) 8)
        (orEmpty exp.company ++ S ", " ++ orEmpty exp.location ++ S " | " ++
          orEmpty exp.period)) 12)
      (bumpY (drawText d (S "PROFESSIONAL EXPERIENCE")) 10)
  else d

def renderEducation (sections : ResumeSections) (d : DocState) : DocState :=
  if !sections.education.isEmpty then
    (sections.education.take 2).foldl (fun d edu =>
      let d1 := bumpY (drawText d (orEmpty edu.degree)) 8
      let line := orEmpty edu.institution ++ S ", " ++
        orEmpty edu.location ++ S " | " ++ orEmpty edu.period
      let line :=
        if truthy edu.gpa then line ++ S " | " ++ orEmpty edu.gpa else line
      bumpY (drawText d1 line) 12)
      (bumpY (drawText d (S "EDUCATION")) 10)
  else d

def renderSkills (sections : ResumeSections)
    (wrap : List Char → List (List Char)) (d : DocState) : DocState :=
  if !sections.skills.isEmpty then
    sections.skills.foldl (fun d sk =>
      bumpY (renderWrapped wrap (sk.category ++ S ": " ++ sk.items) d) 2)
      (bumpY (drawText d (S "TECHNICAL SKILLS")) 10)
  else d

def renderProjects (sections : ResumeSections)
    (wrap : List Char → List (List Char)) (d : DocState) : DocState :=
  if !sections.projects.isEmpty then
    (sections.projects.take 3).foldl (fun d pr =>
      let d1 := bumpY (drawText d pr.name) 8
      let d2 :=
        if !pr.description.isEmpty then renderWrapped wrap pr.description d1
        else d1
      bumpY d2 5)
      (bumpY (drawText d (S "PROJECTS")) 10)
  else d

def renderAchievements (sections : ResumeSections)
    (wrap : List Char → List (List Char)) (d : DocState) : DocState :=
  if !sections.achievements.isEmpty then
    if d.yPos < 250 then
      (sections.achievements.take 3).foldl (fun d a =>
        let d1 := bumpY (drawText d a.name) 8
        let d2 :=
          if !a.description.isEmpty then renderWrapped wrap a.description d1
          else d1
        bumpY d2 5)
        (bumpY (drawText d (S "ACHIEVEMENTS")) 10)
    else d
  else d

def renderRawSections (sections : ResumeSections)
    (wrap : List Char → List (List Char)) (d : DocState) : DocState :=
  if !sections.rawSections.isEmpty then
    sections.rawSections.foldl (fun d sec =>
      let lt := toLowerL sec.title
      if rawSkipWords.any (fun w => containsSubL w lt) then d
      else if 250 < d.yPos then d
      else
        let d1 := bumpY (drawText d (toUpperL sec.title)) 10
        let cleanContent := cleanLatexLineNS sec.content
        let d2 := ((wrap (cleanContent.take 200)).take 3).foldl (fun d ln =>
          if !(trimL ln).isEmpty then bumpY (drawText d ln) 6 else d) d1
        bumpY d2 8) d
  else d

/-- Embedding of `generatePDFWithPDFKit` as the sequence of `doc.text`
draws and `yPos` updates it performs; `wrap` abstracts jsPDF's
`splitTextToSize(text, 170)` line-breaking. -/
def generatePDFdoc (sections : ResumeSections)
    (wrap : List Char → List (List Char)) : DocState :=
  renderRawSections sections wrap
    (renderAchievements sections wrap
      (renderProjects sections wrap
        (renderSkills sections wrap
          (renderEducation sections
            (renderExperience sections
              (renderSummary sections wrap
                (renderHeader sections { texts := [], yPos := 20 })))))))

/-- Abstraction of jsPDF's `doc.output('arraybuffer')`: a PDF header
followed by the byte codes of the drawn texts.  Only its nonemptiness and
the drawn text sequence are relied on. -/
def jsPDFOutput (d : DocState) : List Nat :=
  (S "%PDF-1.3").map Char.toNat ++
    d.texts.foldl (fun acc t => acc ++ t.map Char.toNat) []

def generatePDFWithPDFKit (sections : ResumeSections)
    (wrap : List Char → List (List Char)) : List Nat :=
  jsPDFOutput (generatePDFdoc sections wrap)

/-! ## External typesetting client (`tryLatexOnline`) -/

/-- One remote HTTP response: status class, whether the declared content
type includes `pdf`, and the body bytes. -/
structure RemoteResponse where
  ok : Bool
  contentTypePdf : Bool
  bytes : List Nat
deriving DecidableEq, Repr

/-- The five sequential requests `tryLatexOnline` can issue; `none` means
the `fetch` threw (transport error / abort). -/
structure OnlineAttemptEnv where
  getPdflatex : Option RemoteResponse := none
  postPdflatex : Option RemoteResponse := none
  postXelatex : Option RemoteResponse := none
  postAltService : Option RemoteResponse := none
  postLualatex : Option RemoteResponse := none
deriving DecidableEq, Repr

/-- Acceptance test used by methods 1, 2, 3 and 5: 2xx status, a pdf
content type, and a body above the 1000-byte plausibility floor. -/
def acceptPdfResponse (r? : Option RemoteResponse) : Option (List Nat) :=
  match r? with
  | some r =>
    if r.ok && r.contentTypePdf && decide (1000 < r.bytes.length) then
      some r.bytes
    else none
  | none => none

/-- Acceptance test of method 4 (the alternative service): 2xx status and
the size floor only — no content-type check. -/
def acceptSizedResponse (r? : Option RemoteResponse) : Option (List Nat) :=
  match r? with
  | some r =>
    if r.ok && decide (1000 < r.bytes.length) then some r.bytes else none
  | none => none

/-- Embedding of `tryLatexOnline`: the five methods in order, also counting
issued requests.  A thrown `fetch` in method 2 is not caught by an inner
`try` and aborts the whole function via the outer catch. -/
def tryLatexOnline (_latexContent : List Char) (env : OnlineAttemptEnv) :
    Option (List Nat) × Nat :=
  match acceptPdfResponse env.getPdflatex with
  | some b => (some b, 1)
  | none =>
    match env.postPdflatex with
    | none => (none, 2)
    | some r2 =>
      match acceptPdfResponse (some r2) with
      | some b => (some b, 2)
      | none =>
        match acceptPdfResponse env.postXelatex with
        | some b => (some b, 3)
        | none =>
          match acceptSizedResponse env.postAltService with
          | some b => (some b, 4)
          | none =>
            match acceptPdfResponse env.postLualatex with
            | some b => (some b, 5)
            | none => (none, 5)

/-! ## Orchestrator (`compileLatexToPDF`, `generateSamplePDF`,
`simulateLatexCompilation`) -/

/-- One tier: a `tryLatexOnline` call raced against a deadline timer; a
timeout resolves the race to `null`. -/
structure TierEnv where
  timedOut : Bool
  online : OnlineAttemptEnv
deriving DecidableEq, Repr

structure RemoteEnv where
  tier1 : TierEnv
  tier2 : TierEnv
deriving DecidableEq, Repr

def raceAttempt (content : List Char) (t : TierEnv) : Option (List Nat) × Nat :=
  let (res, n) := tryLatexOnline content t.online
  (if t.timedOut then none else res, n)

/-- Embedding of `compileLatexToPDF`: tier 1 on the original markup, then
tier 2 on the simplified markup when it differs. -/
def compileLatexToPDF (content : List Char) (env : RemoteEnv) :
    Option (List Nat) × Nat :=
  let (r1, n1) := raceAttempt content env.tier1
  match r1 with
  | some b => (some b, n1)
  | none =>
    let simplified := simplifyLatexForOnlineServices content
    if simplified ≠ content then
      let (r2, n2) := raceAttempt simplified env.tier2
      (r2, n1 + n2)
    else (none, n1)

/-- Embedding of `generateSamplePDF`: prefer a remote result above the
floor, otherwise parse the markup and render locally. -/
def generateSamplePDF (content : List Char) (env : RemoteEnv)
    (wrap : List Char → List (List Char)) : List Nat × Nat :=
  let (realPDF, n) := compileLatexToPDF content env
  match realPDF with
  | some b =>
    if 1000 < b.length then (b, n)
    else (generatePDFWithPDFKit (parseLatexContent content) wrap, n)
  | none => (generatePDFWithPDFKit (parseLatexContent content) wrap, n)

/-- The compile entry point's result record
(`CompilationResult` of `src/types/index.ts`): every field but `success`
is optional. -/
structure CompilationResult where
  success : Bool
  pdfBuffer : Option (List Nat) := none
  errors : Option (List String) := none
  warnings : Option (List String) := none
  logs : Option (List String) := none
deriving DecidableEq, Repr

/-- Embedding of `simulateLatexCompilation`: the four validation checks
(each an early return), then the tiered compilation.  The second component
counts remote requests issued. -/
def simulateLatexCompilation (content : List Char) (env : RemoteEnv)
    (wrap : List Char → List (List Char)) : CompilationResult × Nat :=
  if !containsSubL (S "\\documentclass") content then
    ({ success := false,
       errors := some ["Missing \\documentclass declaration"] }, 0)
  else if !containsSubL (S "\\begin{document}") content then
    ({ success := false, errors := some ["Missing \\begin{document}"] }, 0)
  else if !containsSubL (S "\\end{document}") content then
    ({ success := false, errors := some ["Missing \\end{document}"] }, 0)
  else
    let openBraces := content.count '{'
    let closeBraces := content.count '}'
    if openBraces ≠ closeBraces then
      ({ success := false,
         errors := some ["Mismatched braces: " ++
           toString ((openBraces : Int) - (closeBraces : Int)).natAbs ++
           " unmatched"] }, 0)
    else
      let (buf, n) := generateSamplePDF content env wrap
      ({ success := true, pdfBuffer := some buf, warnings := some [],
         logs := some ["LaTeX compilation successful"] }, n)

/-! ## Concrete fixtures used by individual claims -/

/-- A remote environment in which both tiers time out. -/
def envBothTimeout : RemoteEnv :=
  { tier1 := { timedOut := true, online := {} },
    tier2 := { timedOut := true, online := {} } }

/-- Identity line-wrapping (each text becomes a single rendered line). -/
def wrapId : List Char → List (List Char) := fun t => [t]

/-- Attempt environment where the POST `pdflatex` request comes back
non-2xx and the alternative service answers 2xx with a 1001-byte body that
does not declare a pdf content type. -/
def altServiceEnv : OnlineAttemptEnv :=
  { postPdflatex := some { ok := false, contentTypePdf := false, bytes := [] },
    postAltService := some { ok := true, contentTypePdf := false,
                             bytes := List.replicate 1001 0 } }

/-- The dialect-A structured experience macro instance of the spec's test. -/
def subheadingText : List Char :=
  S "\\resumeSubheading{Acme Corp}{2020-2022}{Engineer}{NYC}"

/-- The entry `parseExperienceSection` extracts from `subheadingText`. -/
def acmeEntry : ExpEntry :=
  { company := some (S "Acme Corp"), period := some (S "2020-2022"),
    position := some (S "Engineer"), location := some (S "NYC") }

/-- A source whose body's plain text `"Phone 123"` overlaps the
`\faPhone` icon macro occurrence. -/
def iconOverlapSource : List Char :=
  S "\\documentclass[letterpaper,11pt]{article}\\begin{document}\\section{Contact}Call \\faPhone 123\\end{document}"

/-- Template part standing before an injected marker: a preamble with a
rewritten package import, begin marker and a section heading. -/
def markerPre : List Char :=
  S "\\documentclass[letterpaper,11pt]{article}\n\\usepackage{fontawesome5}\n\\begin{document}\n\\section{Experience}\n"

/-- Template part standing after an injected marker. -/
def markerPost : List Char := S "\n\\end{document}\n"

/-- One rewriting pass of the simplifier: a global literal replacement, or
the global removal of a bracketed construct `opener[^}]*}`. -/
inductive RewritePass where
  | lit : List Char → List Char → RewritePass
  | brk : List Char → RewritePass
deriving DecidableEq

def applyPass : RewritePass → List Char → List Char
  | .lit pat repl, s => replaceAllL pat repl s
  | .brk opener, s => brkAllL opener [] s

/-- The nineteen rewriting passes of `simplifyLatexForOnlineServices`, in
source order (the twentieth step, the baseline geometry insertion, is
`geometryInsert`). -/
def simplifyPasses : List RewritePass :=
  [ .lit (S "\\usepackage{fontawesome5}") (S "% fontawesome5 not available"),
    .lit (S "\\faPhone") (S "Tel:"),
    .lit (S "\\faEnvelope") (S "Email:"),
    .lit (S "\\faLinkedin") (S "LinkedIn:"),
    .lit (S "\\faGithub") (S "GitHub:"),
    .brk (S "\\raisebox" ++ [ '{' ]),
    .lit (S "\\usepackage{marvosym}") (S "% marvosym not available"),
    .lit (S "\\usepackage{multicol}") (S "% multicol simplified"),
    .lit (S "\\input{glyphtounicode}") (S "% glyphtounicode not available"),
    .brk (addtolengthOpener "oddsidemargin"),
    .brk (addtolengthOpener "evensidemargin"),
    .brk (addtolengthOpener "textwidth"),
    .brk (addtolengthOpener "topmargin"),
    .brk (addtolengthOpener "textheight"),
    .lit (S "\\pagestyle{fancy}") (S "\\pagestyle{empty}"),
    .lit (S "\\fancyhf" ++ [ '{', '}' ]) [],
    .lit (S "\\fancyfoot" ++ [ '{', '}' ]) [],
    .brk (S "\\renewcommand" ++ S "\\labelitemi" ++ [ '{' ]),
    .brk (S "\\renewcommand" ++ S "\\labelitemii" ++ [ '{' ]) ]

def simplifyCore (s : List Char) : List Char :=
  simplifyPasses.foldl (fun s p => applyPass p s) s

/-- The final baseline-margin step of the simplifier. -/
def geometryInsert (s : List Char) : List Char :=
  if containsSubL (S "\\usepackage{geometry}") s then s
  else
    replFirstL documentclassLit
      (documentclassLit ++ [ '\n' ] ++ S "\\usepackage[margin=0.75in]{geometry}") s

/-- `noCrossLit pat a` states that no suffix of `a` is a proper initial
fragment of `pat`: a literal match starting inside `a` can never run past
the end of `a`. -/
def noCrossLit (pat a : List Char) : Bool :=
  a.tails.all fun s =>
    s.isEmpty || !(decide (s.length < pat.length) && (pat.take s.length == s))

/-- `noCrossBrk opener a`: no suffix of `a` is a proper initial fragment
of `opener`, and every `opener` occurrence inside `a` is closed by a `}`
inside `a`. -/
def noCrossBrk (opener a : List Char) : Bool :=
  a.tails.all fun s =>
    s.isEmpty ||
      (if s.length < opener.length then !(opener.take s.length == s)
       else !(opener.isPrefixOf s) || (s.drop opener.length).contains '}')

def passNoCross (p : RewritePass) (a : List Char) : Bool :=
  match p with
  | .lit pat _ => (pat.head? == some '\\') && noCrossLit pat a
  | .brk opener => (opener.head? == some '\\') && noCrossBrk opener a

/-- Side condition of the frame theorem, checked along the pass pipeline
against the evolving part standing before the marker. -/
def passesNoCross : List RewritePass → List Char → Bool
  | [], _ => true
  | p :: ps, a => passNoCross p a && passesNoCross ps (applyPass p a)

/-- Classification predicate of the `forEach` pass for the experience
category: the summary branch is tested first, so a title matching a
summary keyword never reaches the experience branch. -/
def classifiesAsExperience (t : List Char) : Bool :=
  let lt := toLowerL t
  !(containsSubL (S "summary") lt || containsSubL (S "objective") lt ||
      containsSubL (S "profile") lt) &&
    (containsSubL (S "experience") lt || containsSubL (S "work") lt ||
      containsSubL (S "employment") lt)

/-- The section whose parse the classification pass keeps for the
experience category: assignments overwrite, so the last
experience-classified section wins. -/
def lastExperienceSection (secs : List RawSection) : Option RawSection :=
  secs.foldl
    (fun acc s => if classifiesAsExperience s.title then some s else acc) none

/-- A well-formed markup fixture whose single experience section consists
of exactly the structured subheading macro. -/
def acmeMarkup : List Char :=
  S "\\documentclass{article}\n\\begin{document}\n\\section{Experience}\n" ++
    subheadingText ++ S "\n\\end{document}"

/-- The four validation checks of `simulateLatexCompilation`, in source
order, as a violation flag per check. -/
def checkViolations (content : List Char) : List Bool :=
  [!containsSubL (S "\\documentclass") content,
   !containsSubL (S "\\begin{document}") content,
   !containsSubL (S "\\end{document}") content,
   decide (content.count '{' ≠ content.count '}')]

/-- The error message of the earliest violated check (the brace message
when the three containment checks pass). -/
def firstViolationMsg (content : List Char) : String :=
  if !containsSubL (S "\\documentclass") content then
    "Missing \\documentclass declaration"
  else if !containsSubL (S "\\begin{document}") content then
    "Missing \\begin{document}"
  else if !containsSubL (S "\\end{document}") content then
    "Missing \\end{document}"
  else
    "Mismatched braces: " ++
      toString (((content.count '{' : Int) -
        (content.count '}' : Int)).natAbs) ++ " unmatched"

/-! ## Helper lemmas -/

theorem acceptPdf_length {r? : Option RemoteResponse} {b : List Nat}
    (h : acceptPdfResponse r? = some b) : 1000 < b.length := by
  unfold acceptPdfResponse at h
  split at h
  · split at h
    · rename_i hc
      injection h with hb
      subst hb
      simp only [Bool.and_eq_true, decide_eq_true_eq] at hc
      exact hc.2
    · simp at h
  · simp at h

theorem acceptSized_length {r? : Option RemoteResponse} {b : List Nat}
    (h : acceptSizedResponse r? = some b) : 1000 < b.length := by
  unfold acceptSizedResponse at h
  split at h
  · split at h
    · rename_i hc
      injection h with hb
      subst hb
      simp only [Bool.and_eq_true, decide_eq_true_eq] at hc
      exact hc.2
    · simp at h
  · simp at h

/-! ## Claims about the validator and orchestrator result shape -/

/-- C2 counterexample: on the source `"x"` (which fails validation) the
returned `CompilationResult` has `success = false` and its `pdfBuffer`
field is absent, contradicting "the document field is always present". -/
theorem C2_counterexample :
    (simulateLatexCompilation (S "x") envBothTimeout wrapId).1.success = false ∧
    (simulateLatexCompilation (S "x") envBothTimeout wrapId).1.pdfBuffer = none := by
  decide

/-- C2 amended: the document buffer is present exactly when `success` is
true; every validation failure returns with the buffer unset. -/
theorem C2_amended (content : List Char) (env : RemoteEnv)
    (wrap : List Char → List (List Char)) :
    ((simulateLatexCompilation content env wrap).1.pdfBuffer).isSome =
      (simulateLatexCompilation content env wrap).1.success := by
  unfold simulateLatexCompilation
  repeat' split
  all_goals try simp
  all_goals split <;> simp

/-- C3 counterexample: the source `"x"` violates the document-class,
document-begin and document-end checks at once, yet the error list is the
singleton naming only the first violated check. -/
theorem C3_counterexample :
    containsSubL (S "\\documentclass") (S "x") = false ∧
    containsSubL (S "\\begin{document}") (S "x") = false ∧
    containsSubL (S "\\end{document}") (S "x") = false ∧
    (simulateLatexCompilation (S "x") envBothTimeout wrapId).1.errors =
      some ["Missing \\documentclass declaration"] := by
  decide

/-- C3 amended: the validator short-circuits on the first failing check —
for every source violating more than one of the four checks, the error
list is exactly the singleton carrying the message of the earliest
violated check. -/
theorem C3_amended (content : List Char) (env : RemoteEnv)
    (wrap : List Char → List (List Char))
    (hmulti : 2 ≤ (checkViolations content).count true) :
    (simulateLatexCompilation content env wrap).1.errors =
      some [firstViolationMsg content] := by
  cases h1 : containsSubL (S "\\documentclass") content with
  | false => simp [simulateLatexCompilation, firstViolationMsg, h1]
  | true =>
    cases h2 : containsSubL (S "\\begin{document}") content with
    | false => simp [simulateLatexCompilation, firstViolationMsg, h1, h2]
    | true =>
      cases h3 : containsSubL (S "\\end{document}") content with
      | false => simp [simulateLatexCompilation, firstViolationMsg, h1, h2, h3]
      | true =>
        exfalso
        simp only [checkViolations, h1, h2, h3, Bool.not_true] at hmulti
        cases h4 : decide (content.count '{' ≠ content.count '}') <;>
          rw [h4] at hmulti <;> exact absurd hmulti (by decide)

/-- C3 amended, witness at the source `"x"`, which violates the three
containment checks at once; the earliest check's message is the
document-class one. -/
theorem C3_amended_witness :
    2 ≤ (checkViolations (S "x")).count true ∧
    firstViolationMsg (S "x") = "Missing \\documentclass declaration" ∧
    (simulateLatexCompilation (S "x") envBothTimeout wrapId).1.errors =
      some [firstViolationMsg (S "x")] :=
  ⟨by decide, by decide,
    C3_amended (S "x") envBothTimeout wrapId (by decide)⟩

/-- C4 counterexample: the source `"x"` lacks the document-end marker and
compile fails with zero network calls, but the reported message names the
missing document-class declaration, not the end marker. -/
theorem C4_counterexample :
    containsSubL (S "\\end{document}") (S "x") = false ∧
    (simulateLatexCompilation (S "x") envBothTimeout wrapId).1.errors =
      some ["Missing \\documentclass declaration"] ∧
    containsSubL (S "\\end{document}")
      (S "Missing \\documentclass declaration") = false := by
  decide

/-- C4 amended: every source lacking the document-end marker yields
`success = false` and zero issued network requests; the error names the
end marker provided the class and begin markers are present (otherwise an
earlier check's message is reported instead). -/
theorem C4_amended (content : List Char) (env : RemoteEnv)
    (wrap : List Char → List (List Char))
    (h : containsSubL (S "\\end{document}") content = false) :
    (simulateLatexCompilation content env wrap).1.success = false ∧
    (simulateLatexCompilation content env wrap).2 = 0 ∧
    (containsSubL (S "\\documentclass") content = true →
      containsSubL (S "\\begin{document}") content = true →
      (simulateLatexCompilation content env wrap).1.errors =
        some ["Missing \\end{document}"]) := by
  unfold simulateLatexCompilation
  cases hc : containsSubL (S "\\documentclass") content <;>
    cases hb : containsSubL (S "\\begin{document}") content <;>
      simp [hc, hb, h]

/-- C4 amended, witness at a source with class and begin markers but no
end marker. -/
theorem C4_amended_witness :
    containsSubL (S "\\end{document}")
      (S "\\documentclass{article}\\begin{document}") = false ∧
    ((simulateLatexCompilation (S "\\documentclass{article}\\begin{document}")
        envBothTimeout wrapId).1.success = false ∧
     (simulateLatexCompilation (S "\\documentclass{article}\\begin{document}")
        envBothTimeout wrapId).2 = 0 ∧
     (containsSubL (S "\\documentclass")
          (S "\\documentclass{article}\\begin{document}") = true →
      containsSubL (S "\\begin{document}")
          (S "\\documentclass{article}\\begin{document}") = true →
      (simulateLatexCompilation (S "\\documentclass{article}\\begin{document}")
          envBothTimeout wrapId).1.errors =
        some ["Missing \\end{document}"])) :=
  ⟨by decide,
    C4_amended (S "\\documentclass{article}\\begin{document}")
      envBothTimeout wrapId (by decide)⟩

/-! ## Claims about the simplifier -/

/-- C5 counterexample: `simplify` is not idempotent — on the bare
article-class declaration a second application appends a second baseline
geometry package line. -/
theorem C5_counterexample :
    simplifyLatexForOnlineServices
        (simplifyLatexForOnlineServices documentclassLit) ≠
      simplifyLatexForOnlineServices documentclassLit := by
  decide

/-- C5 amended: `simplify` is not idempotent.  On a source lacking a
`\usepackage{geometry}` import but containing the standard document-class
line, each further application appends another copy of the baseline
margin declaration, because the inserted option-carrying import does not
satisfy the `includes('\usepackage{geometry}')` guard. -/
theorem C5_amended :
    simplifyLatexForOnlineServices
        (simplifyLatexForOnlineServices documentclassLit) =
      simplifyLatexForOnlineServices documentclassLit ++
        [ '\n' ] ++ S "\\usepackage[margin=0.75in]{geometry}" := by
  decide

/-! ## Claims about the external typesetting client -/

/-- C7 counterexample: the method-4 alternative service performs no
content-type check — a 2xx response of 1001 bytes without a pdf content
type is accepted and returned as the compiled document. -/
theorem C7_counterexample :
    (tryLatexOnline [] altServiceEnv).1 = some (List.replicate 1001 0) ∧
    altServiceEnv.postAltService.map RemoteResponse.contentTypePdf =
      some false := by
  decide

/-- C7 amended: every non-null result of `tryLatexOnline` exceeds the
1000-byte plausibility floor and stems from one of the five methods'
acceptance tests; methods 1, 2, 3 and 5 additionally require the pdf
content type, while method 4 (the alternative service) checks only the
status and the floor. -/
theorem C7_amended (content : List Char) (env : OnlineAttemptEnv)
    (b : List Nat) (h : (tryLatexOnline content env).1 = some b) :
    1000 < b.length ∧
    (acceptPdfResponse env.getPdflatex = some b ∨
     acceptPdfResponse env.postPdflatex = some b ∨
     acceptPdfResponse env.postXelatex = some b ∨
     acceptSizedResponse env.postAltService = some b ∨
     acceptPdfResponse env.postLualatex = some b) := by
  unfold tryLatexOnline at h
  repeat' split at h
  all_goals simp_all
  · exact acceptPdf_length ‹_›
  · exact acceptPdf_length ‹_›
  · exact acceptPdf_length ‹_›
  · exact acceptSized_length ‹_›
  · exact acceptPdf_length ‹_›

/-- C7 amended, witness at the alternative-service environment. -/
theorem C7_amended_witness :
    (tryLatexOnline [] altServiceEnv).1 = some (List.replicate 1001 0) ∧
    (1000 < (List.replicate 1001 (0 : Nat)).length ∧
     (acceptPdfResponse altServiceEnv.getPdflatex =
        some (List.replicate 1001 0) ∨
      acceptPdfResponse altServiceEnv.postPdflatex =
        some (List.replicate 1001 0) ∨
      acceptPdfResponse altServiceEnv.postXelatex =
        some (List.replicate 1001 0) ∨
      acceptSizedResponse altServiceEnv.postAltService =
        some (List.replicate 1001 0) ∨
      acceptPdfResponse altServiceEnv.postLualatex =
        some (List.replicate 1001 0))) :=
  ⟨by decide, C7_amended [] altServiceEnv (List.replicate 1001 0) (by decide)⟩

/-! ## Claims about the experience parser heuristics -/

/-- C9 counterexample: on a body consisting only of the lines
`"Software Engineer"` and `"2021-2023"` the heuristic classifies both
lines but never appends the entry — the parsed experience list is empty,
because an entry is flushed only once a company line is also seen. -/
theorem C9_counterexample :
    parseExperienceSection (S "Software Engineer\n2021-2023") = [] := by
  decide

/-- C9 amended: the heuristic does classify `"Software Engineer"` as the
in-progress entry's position and `"2021-2023"` as its period, but the
entry is appended to the output only when a company line follows; with a
third non-matching line the entry emerges carrying exactly that
classification. -/
theorem C9_amended :
    ((splitOnChar '\n' (S "Software Engineer\n2021-2023")).foldl heurStep
        ({}, [])).1 =
      { position := some (S "Software Engineer"),
        period := some (S "2021-2023") } ∧
    parseExperienceSection (S "Software Engineer\n2021-2023\nAcme Corp") =
      [{ position := some (S "Software Engineer"),
         company := some (S "Acme Corp"),
         period := some (S "2021-2023") }] := by
  decide

/-! ## Renderer structure lemmas -/

@[simp] theorem texts_bumpY (d : DocState) (n : Nat) :
    (bumpY d n).texts = d.texts := rfl

@[simp] theorem texts_drawText (d : DocState) (t : List Char) :
    (drawText d t).texts = d.texts ++ [t] := rfl

theorem foldl_texts_pfx {β : Type} (g : DocState → β → DocState)
    (hg : ∀ d b, d.texts <+: (g d b).texts) (xs : List β) :
    ∀ d, d.texts <+: (xs.foldl g d).texts := by
  induction xs with
  | nil => exact fun d => List.prefix_refl _
  | cons x xs ih =>
    intro d
    exact (hg d x).trans (ih (g d x))

theorem texts_renderWrapped_pfx (wrap : List Char → List (List Char))
    (t : List Char) (d : DocState) :
    d.texts <+: (renderWrapped wrap t d).texts :=
  foldl_texts_pfx _
    (fun d ln => by simp [List.prefix_append]) (wrap t) d

theorem texts_renderSummary_pfx (sections : ResumeSections)
    (wrap : List Char → List (List Char)) (d : DocState) :
    d.texts <+: (renderSummary sections wrap d).texts := by
  unfold renderSummary
  split
  · refine List.IsPrefix.trans ?_
      ((texts_renderWrapped_pfx wrap sections.summary
        (bumpY (drawText (bumpY d 5) (S "PROFESSIONAL SUMMARY")) 10)).trans
          (by rw [texts_bumpY]))
    simp [List.prefix_append]
  · exact List.prefix_refl _

theorem texts_renderExperience_pfx (sections : ResumeSections) (d : DocState) :
    d.texts <+: (renderExperience sections d).texts := by
  unfold renderExperience
  split
  · refine List.IsPrefix.trans (by simp [List.prefix_append] :
      d.texts <+: (bumpY (drawText d (S "PROFESSIONAL EXPERIENCE")) 10).texts) ?_
    apply foldl_texts_pfx
    intro d exp
    simp [List.append_assoc, List.prefix_append]
  · exact List.prefix_refl _

theorem texts_renderEducation_pfx (sections : ResumeSections) (d : DocState) :
    d.texts <+: (renderEducation sections d).texts := by
  unfold renderEducation
  split
  · refine List.IsPrefix.trans (by simp [List.prefix_append] :
      d.texts <+: (bumpY (drawText d (S "EDUCATION")) 10).texts) ?_
    apply foldl_texts_pfx
    intro d edu
    dsimp only
    simp [List.append_assoc, List.prefix_append]
  · exact List.prefix_refl _

theorem texts_renderSkills_pfx (sections : ResumeSections)
    (wrap : List Char → List (List Char)) (d : DocState) :
    d.texts <+: (renderSkills sections wrap d).texts := by
  unfold renderSkills
  split
  · refine List.IsPrefix.trans (by simp [List.prefix_append] :
      d.texts <+: (bumpY (drawText d (S "TECHNICAL SKILLS")) 10).texts) ?_
    apply foldl_texts_pfx
    intro d sk
    exact (texts_renderWrapped_pfx wrap (sk.category ++ S ": " ++ sk.items) d).trans
      (by rw [texts_bumpY])
  · exact List.prefix_refl _

theorem texts_renderProjects_pfx (sections : ResumeSections)
    (wrap : List Char → List (List Char)) (d : DocState) :
    d.texts <+: (renderProjects sections wrap d).texts := by
  unfold renderProjects
  split
  · refine List.IsPrefix.trans (by simp [List.prefix_append] :
      d.texts <+: (bumpY (drawText d (S "PROJECTS")) 10).texts) ?_
    apply foldl_texts_pfx
    intro d pr
    dsimp only
    refine List.IsPrefix.trans (by simp [List.prefix_append] :
      d.texts <+: (bumpY (drawText d pr.name) 8).texts) ?_
    split
    · exact (texts_renderWrapped_pfx wrap pr.description _).trans (by rw [texts_bumpY])
    · simp
  · exact List.prefix_refl _

theorem texts_renderAchievements_pfx (sections : ResumeSections)
    (wrap : List Char → List (List Char)) (d : DocState) :
    d.texts <+: (renderAchievements sections wrap d).texts := by
  unfold renderAchievements
  split
  · split
    · refine List.IsPrefix.trans (by simp [List.prefix_append] :
        d.texts <+: (bumpY (drawText d (S "ACHIEVEMENTS")) 10).texts) ?_
      apply foldl_texts_pfx
      intro d a
      dsimp only
      refine List.IsPrefix.trans (by simp [List.prefix_append] :
        d.texts <+: (bumpY (drawText d a.name) 8).texts) ?_
      split
      · exact (texts_renderWrapped_pfx wrap a.description _).trans (by rw [texts_bumpY])
      · simp
    · exact List.prefix_refl _
  · exact List.prefix_refl _

theorem texts_renderRawSections_pfx (sections : ResumeSections)
    (wrap : List Char → List (List Char)) (d : DocState) :
    d.texts <+: (renderRawSections sections wrap d).texts := by
  unfold renderRawSections
  split
  · apply foldl_texts_pfx
    intro d sec
    dsimp only
    split
    · exact List.prefix_refl _
    · split
      · exact List.prefix_refl _
      · refine List.IsPrefix.trans (by simp [List.prefix_append] :
          d.texts <+: (bumpY (drawText d (toUpperL sec.title)) 10).texts) ?_
        refine List.IsPrefix.trans ?_ (by rw [texts_bumpY])
        apply foldl_texts_pfx
        intro d ln
        dsimp only
        split
        · simp [List.prefix_append]
        · exact List.prefix_refl _
  · exact List.prefix_refl _

theorem texts_renderHeader_head (sections : ResumeSections) :
    (renderHeader sections { texts := [], yPos := 20 }).texts.head? =
      some (headerNameText sections) := by
  unfold renderHeader
  dsimp only
  repeat' split
  all_goals simp

theorem head?_of_pfx {α : Type} {l₁ l₂ : List α} {a : α}
    (h : l₁ <+: l₂) (ha : l₁.head? = some a) : l₂.head? = some a := by
  obtain ⟨t, ht⟩ := h
  subst ht
  cases l₁ with
  | nil => simp at ha
  | cons x xs => simpa using ha

/-- The first text drawn by the fallback renderer is always
`sections.name || 'Resume Preview'`. -/
theorem generatePDFdoc_head (sections : ResumeSections)
    (wrap : List Char → List (List Char)) :
    (generatePDFdoc sections wrap).texts.head? =
      some (headerNameText sections) := by
  unfold generatePDFdoc
  exact head?_of_pfx
    ((texts_renderSummary_pfx _ _ _).trans
      ((texts_renderExperience_pfx _ _).trans
        ((texts_renderEducation_pfx _ _).trans
          ((texts_renderSkills_pfx _ _ _).trans
            ((texts_renderProjects_pfx _ _ _).trans
              ((texts_renderAchievements_pfx _ _ _).trans
                (texts_renderRawSections_pfx _ _ _)))))))
    (texts_renderHeader_head sections)

/-- The modelled jsPDF output always has positive length (it begins with
the PDF header). -/
theorem generatePDFWithPDFKit_pos (sections : ResumeSections)
    (wrap : List Char → List (List Char)) :
    0 < (generatePDFWithPDFKit sections wrap).length := by
  unfold generatePDFWithPDFKit jsPDFOutput
  rw [List.length_append]
  have h8 : ((S "%PDF-1.3").map Char.toNat).length = 8 := rfl
  omega

/-! ## Orchestrator fallback lemmas -/

theorem compileLatexToPDF_none (content : List Char) (env : RemoteEnv)
    (hr1 : (raceAttempt content env.tier1).1 = none)
    (hr2 : (raceAttempt (simplifyLatexForOnlineServices content) env.tier2).1 = none) :
    (compileLatexToPDF content env).1 = none := by
  unfold compileLatexToPDF
  rcases hA : raceAttempt content env.tier1 with ⟨r1, n1⟩
  rw [hA] at hr1
  simp only at hr1
  subst hr1
  dsimp only
  split
  · rcases hB : raceAttempt (simplifyLatexForOnlineServices content) env.tier2 with ⟨r2, n2⟩
    rw [hB] at hr2
    simp only at hr2
    subst hr2
    rfl
  · rfl

theorem generateSamplePDF_fallback (content : List Char) (env : RemoteEnv)
    (wrap : List Char → List (List Char))
    (hr1 : (raceAttempt content env.tier1).1 = none)
    (hr2 : (raceAttempt (simplifyLatexForOnlineServices content) env.tier2).1 = none) :
    (generateSamplePDF content env wrap).1 =
      generatePDFWithPDFKit (parseLatexContent content) wrap := by
  have hc := compileLatexToPDF_none content env hr1 hr2
  unfold generateSamplePDF
  rcases hC : compileLatexToPDF content env with ⟨rp, n⟩
  rw [hC] at hc
  simp only at hc
  subst hc
  rfl

/-- C1: when validation passes and both remote tiers resolve to `null`
(timeout, transport error, non-2xx, wrong content type or sub-floor body),
`compile` still returns `success = true` with the document produced by the
local fallback renderer, whose byte buffer is nonempty. -/
theorem C1_theorem (content : List Char) (env : RemoteEnv)
    (wrap : List Char → List (List Char))
    (h1 : containsSubL (S "\\documentclass") content = true)
    (h2 : containsSubL (S "\\begin{document}") content = true)
    (h3 : containsSubL (S "\\end{document}") content = true)
    (h4 : List.count '{' content = List.count '}' content)
    (hr1 : (raceAttempt content env.tier1).1 = none)
    (hr2 : (raceAttempt (simplifyLatexForOnlineServices content) env.tier2).1 = none) :
    (simulateLatexCompilation content env wrap).1.success = true ∧
    (simulateLatexCompilation content env wrap).1.pdfBuffer =
      some (generatePDFWithPDFKit (parseLatexContent content) wrap) ∧
    0 < (generatePDFWithPDFKit (parseLatexContent content) wrap).length := by
  have hfb := generateSamplePDF_fallback content env wrap hr1 hr2
  rcases hG : generateSamplePDF content env wrap with ⟨buf, n⟩
  rw [hG] at hfb
  simp only at hfb
  subst hfb
  refine ⟨?_, ?_, generatePDFWithPDFKit_pos _ _⟩ <;>
    simp [simulateLatexCompilation, h1, h2, h3, h4, hG]

/-- C1 witness: a minimal valid document with both tiers timing out. -/
theorem C1_theorem_witness :
    containsSubL (S "\\documentclass")
      (S "\\documentclass{article}\\begin{document}hi\\end{document}") = true ∧
    ((simulateLatexCompilation
        (S "\\documentclass{article}\\begin{document}hi\\end{document}")
        envBothTimeout wrapId).1.success = true ∧
     (simulateLatexCompilation
        (S "\\documentclass{article}\\begin{document}hi\\end{document}")
        envBothTimeout wrapId).1.pdfBuffer =
       some (generatePDFWithPDFKit
         (parseLatexContent
           (S "\\documentclass{article}\\begin{document}hi\\end{document}")) wrapId) ∧
     0 < (generatePDFWithPDFKit
       (parseLatexContent
         (S "\\documentclass{article}\\begin{document}hi\\end{document}")) wrapId).length) :=
  ⟨by decide,
    C1_theorem (S "\\documentclass{article}\\begin{document}hi\\end{document}")
      envBothTimeout wrapId (by decide) (by decide) (by decide) (by decide)
      (by decide) (by decide)⟩

/-! ## Name extraction totality (C10) -/

theorem categorizeStep_name (acc : ResumeSections) (s : RawSection) :
    (categorizeStep acc s).name = acc.name := by
  simp only [categorizeStep]
  repeat' split
  all_goals rfl

theorem foldl_categorize_name (secs : List RawSection) :
    ∀ acc, (secs.foldl categorizeStep acc).name = acc.name := by
  induction secs with
  | nil => intro acc; rfl
  | cons s ss ih => intro acc; rw [List.foldl_cons, ih, categorizeStep_name]

theorem parseLatexContent_name (latex : List Char) :
    (parseLatexContent latex).name = extractName latex := by
  unfold parseLatexContent
  rw [foldl_categorize_name]

/-- C10: when none of the name strategies matches — no explicit pattern,
no center-environment or centerline form, and no capitalised word pair in
the first 15 lines — `extractName` returns the placeholder
`"Resume Preview"`, and the fallback renderer draws that placeholder as
the document's header name. -/
theorem C10_theorem (latex : List Char) (wrap : List Char → List (List Char))
    (hp : nameFromPatterns latex = none)
    (hc : nameFromCenterEnv latex = none)
    (hl : nameFromCenterline latex = none)
    (hn : nameFromLines latex = none) :
    extractName latex = S "Resume Preview" ∧
    (generatePDFdoc (parseLatexContent latex) wrap).texts.head? =
      some (S "Resume Preview") := by
  have hx : extractName latex = S "Resume Preview" := by
    unfold extractName
    rw [hp, hc, hl, hn]
  refine ⟨hx, ?_⟩
  rw [generatePDFdoc_head]
  have hn' : (parseLatexContent latex).name = S "Resume Preview" := by
    rw [parseLatexContent_name, hx]
  simp [headerNameText, hn']

/-- C10 witness: a source without any name-like structure. -/
theorem C10_theorem_witness :
    nameFromPatterns (S "hello world") = none ∧
    (extractName (S "hello world") = S "Resume Preview" ∧
     (generatePDFdoc (parseLatexContent (S "hello world")) wrapId).texts.head? =
       some (S "Resume Preview")) :=
  ⟨by decide,
    C10_theorem (S "hello world") wrapId (by decide) (by decide) (by decide)
      (by decide)⟩

/-! ## Structured experience extraction (C8) -/

theorem resumeSubheadingAt_self (post : List Char) :
    resumeSubheadingAt (subheadingText ++ post) = some (acmeEntry, post) := rfl

theorem resumeSubheadingAt_cons_self (post : List Char) :
    resumeSubheadingAt
        ('\\' :: (S "resumeSubheading{Acme Corp}{2020-2022}{Engineer}{NYC}" ++ post)) =
      some (acmeEntry, post) := rfl

theorem resumeSubheadingAt_nonBS (c : Char) (cs : List Char) (h : ¬ c = '\\') :
    resumeSubheadingAt (c :: cs) = none := by
  have hS : S "\\resumeSubheading" = '\\' :: S "resumeSubheading" := rfl
  have hlit : litP (S "\\resumeSubheading") (c :: cs) = none := by
    rw [hS]
    unfold litP
    have : List.isPrefixOf ('\\' :: S "resumeSubheading") (c :: cs) = false := by
      simp [List.isPrefixOf]
      intro hc
      exact absurd hc.symm h
    simp [this]
  simp [resumeSubheadingAt, hlit]

theorem scanAllGo_skipNoBS {α : Type} (f : List Char → Option (α × List Char))
    (hf : ∀ c cs, ¬ c = '\\' → f (c :: cs) = none) :
    ∀ pre rest, (∀ c ∈ pre, ¬ c = '\\') →
      scanAllGo f 0 (pre ++ rest) = scanAllGo f 0 rest := by
  intro pre
  induction pre with
  | nil => intro rest _; rfl
  | cons c pre' ih =>
    intro rest h
    rw [List.cons_append]
    show (match f (c :: (pre' ++ rest)) with
      | some (a, r) =>
        a :: scanAllGo f ((c :: (pre' ++ rest)).length - r.length - 1) (pre' ++ rest)
      | none => scanAllGo f 0 (pre' ++ rest)) = scanAllGo f 0 rest
    rw [hf c _ (h c (List.mem_cons_self c pre'))]
    exact ih rest (fun x hx => h x (List.mem_cons_of_mem c hx))

theorem acme_mem_parseExperienceSection (pre post : List Char)
    (hpre : ∀ c ∈ pre, ¬ c = '\\') :
    acmeEntry ∈ parseExperienceSection (pre ++ (subheadingText ++ post)) := by
  have hmem : acmeEntry ∈ scanAllL resumeSubheadingAt (pre ++ (subheadingText ++ post)) := by
    rw [scanAllL,
      scanAllGo_skipNoBS resumeSubheadingAt resumeSubheadingAt_nonBS pre _ hpre]
    have hdecomp : subheadingText ++ post =
        '\\' :: (S "resumeSubheading{Acme Corp}{2020-2022}{Engineer}{NYC}" ++ post) := rfl
    rw [hdecomp]
    show acmeEntry ∈ (match resumeSubheadingAt
        ('\\' :: (S "resumeSubheading{Acme Corp}{2020-2022}{Engineer}{NYC}" ++ post)) with
      | some (a, r) =>
        a :: scanAllGo resumeSubheadingAt
          (('\\' :: (S "resumeSubheading{Acme Corp}{2020-2022}{Engineer}{NYC}" ++ post)).length
            - r.length - 1)
          (S "resumeSubheading{Acme Corp}{2020-2022}{Engineer}{NYC}" ++ post)
      | none => scanAllGo resumeSubheadingAt 0
          (S "resumeSubheading{Acme Corp}{2020-2022}{Engineer}{NYC}" ++ post))
    rw [resumeSubheadingAt_cons_self]
    exact List.mem_cons_self _ _
  unfold parseExperienceSection
  dsimp only
  split
  · rename_i hemp
    simp only [List.isEmpty_eq_true, List.append_eq_nil] at hemp
    exact absurd (hemp.1.1.1 ▸ hmem) (List.not_mem_nil _)
  · exact List.mem_append_left _ (List.mem_append_left _ (List.mem_append_left _ hmem))

theorem categorizeStep_experience (acc : ResumeSections) (s : RawSection) :
    (categorizeStep acc s).experience =
      if classifiesAsExperience s.title then parseExperienceSection s.content
      else acc.experience := by
  unfold categorizeStep classifiesAsExperience
  dsimp only
  split
  · rename_i h1
    simp [h1]
  · rename_i h1
    have h1' : (containsSubL (S "summary") (toLowerL s.title) ||
        containsSubL (S "objective") (toLowerL s.title) ||
        containsSubL (S "profile") (toLowerL s.title)) = false := by
      simpa using h1
    split
    · rename_i h2
      simp [h1', h2]
    · rename_i h2
      have h2' : (containsSubL (S "experience") (toLowerL s.title) ||
          containsSubL (S "work") (toLowerL s.title) ||
          containsSubL (S "employment") (toLowerL s.title)) = false := by
        simpa using h2
      simp only [h1', h2', Bool.not_false, Bool.true_and, Bool.false_eq_true,
        if_false]
      repeat' split
      all_goals rfl

theorem foldl_updExp_seed (rest : List RawSection) :
    ∀ st : Option RawSection,
      rest.foldl (fun acc s => if classifiesAsExperience s.title then some s else acc) st =
        match rest.foldl
            (fun acc s => if classifiesAsExperience s.title then some s else acc) none with
        | some r => some r
        | none => st := by
  induction rest with
  | nil => intro st; rfl
  | cons r rest' ih =>
    intro st
    rw [List.foldl_cons, List.foldl_cons, ih, ih (if classifiesAsExperience r.title then some r else none)]
    cases hF : rest'.foldl
        (fun acc s => if classifiesAsExperience s.title then some s else acc) none with
    | some rr => rfl
    | none => cases hc : classifiesAsExperience r.title <;> simp [hc]

theorem foldl_categorize_experience (secs : List RawSection) :
    ∀ acc, (secs.foldl categorizeStep acc).experience =
      match lastExperienceSection secs with
      | some s => parseExperienceSection s.content
      | none => acc.experience := by
  induction secs with
  | nil => intro acc; rfl
  | cons s rest ih =>
    intro acc
    rw [List.foldl_cons, ih]
    show _ = (match lastExperienceSection (s :: rest) with
      | some r => parseExperienceSection r.content
      | none => acc.experience)
    have hseed : lastExperienceSection (s :: rest) =
        match lastExperienceSection rest with
        | some r => some r
        | none => if classifiesAsExperience s.title then some s else none := by
      unfold lastExperienceSection
      rw [List.foldl_cons]
      exact foldl_updExp_seed rest _
    rw [hseed]
    cases hF : lastExperienceSection rest with
    | some r => rfl
    | none =>
      cases hc : classifiesAsExperience s.title <;>
        simp [categorizeStep_experience, hc]

/-- C8: when the section the classifier keeps for the experience category
(the last experience-classified section — experience-keyword title not
also matching a summary keyword) has a body using the structured macro
`\resumeSubheading{Acme Corp}{2020-2022}{Engineer}{NYC}` preceded only by
backslash-free text, the parser's output contains the experience entry
`company="Acme Corp", period="2020-2022", position="Engineer",
location="NYC"`. -/
theorem C8_theorem (latex title pre post : List Char)
    (hfind : lastExperienceSection (extractAllSections latex) =
      some { title := title, content := pre ++ (subheadingText ++ post) })
    (hpre : ∀ c ∈ pre, ¬ c = '\\') :
    acmeEntry ∈ (parseLatexContent latex).experience := by
  unfold parseLatexContent
  rw [foldl_categorize_experience, hfind]
  exact acme_mem_parseExperienceSection pre post hpre

/-- C8 witness: a concrete document whose experience section is exactly
the structured macro. -/
theorem C8_theorem_witness :
    lastExperienceSection (extractAllSections acmeMarkup) =
      some { title := S "Experience", content := [] ++ (subheadingText ++ []) } ∧
    acmeEntry ∈ (parseLatexContent acmeMarkup).experience :=
  ⟨by decide,
    C8_theorem acmeMarkup (S "Experience") [] [] (by decide) (by simp)⟩

/-! ## Simplifier frame lemmas (C6) -/

theorem simplifyCore_eq (s : List Char) :
    simplifyCore s =
      (let s := replaceAllL (S "\\usepackage{fontawesome5}")
        (S "% fontawesome5 not available") s
       let s := replaceAllL (S "\\faPhone") (S "Tel:") s
       let s := replaceAllL (S "\\faEnvelope") (S "Email:") s
       let s := replaceAllL (S "\\faLinkedin") (S "LinkedIn:") s
       let s := replaceAllL (S "\\faGithub") (S "GitHub:") s
       let s := brkAllL (S "\\raisebox" ++ [ '{' ]) [] s
       let s := replaceAllL (S "\\usepackage{marvosym}")
         (S "% marvosym not available") s
       let s := replaceAllL (S "\\usepackage{multicol}")
         (S "% multicol simplified") s
       let s := replaceAllL (S "\\input{glyphtounicode}")
         (S "% glyphtounicode not available") s
       let s := brkAllL (addtolengthOpener "oddsidemargin") [] s
       let s := brkAllL (addtolengthOpener "evensidemargin") [] s
       let s := brkAllL (addtolengthOpener "textwidth") [] s
       let s := brkAllL (addtolengthOpener "topmargin") [] s
       let s := brkAllL (addtolengthOpener "textheight") [] s
       let s := replaceAllL (S "\\pagestyle{fancy}") (S "\\pagestyle{empty}") s
       let s := replaceAllL (S "\\fancyhf" ++ [ '{', '}' ]) [] s
       let s := replaceAllL (S "\\fancyfoot" ++ [ '{', '}' ]) [] s
       let s := brkAllL (S "\\renewcommand" ++ S "\\labelitemi" ++ [ '{' ]) [] s
       brkAllL (S "\\renewcommand" ++ S "\\labelitemii" ++ [ '{' ]) [] s) := by
  simp only [simplifyCore, simplifyPasses, List.foldl_cons, List.foldl_nil,
    applyPass]

theorem simplify_eq_passes (s : List Char) :
    simplifyLatexForOnlineServices s = geometryInsert (simplifyCore s) := by
  rw [simplifyCore_eq]
  rfl

theorem isPrefixOf_mono {l s t : List Char} (h : List.isPrefixOf l s = true) :
    List.isPrefixOf l (s ++ t) = true := by
  rw [List.isPrefixOf_iff_prefix] at h ⊢
  exact h.trans (List.prefix_append s t)

theorem prefix_take_eq {pat s t : List Char} (h : pat <+: s ++ t)
    (hlen : s.length ≤ pat.length) : pat.take s.length = s := by
  obtain ⟨r, hr⟩ := h
  have h1 : (pat ++ r).take s.length = (s ++ t).take s.length := by rw [hr]
  rw [List.take_append_eq_append_take, List.take_append_eq_append_take] at h1
  simpa [Nat.sub_eq_zero_of_le hlen] using h1

theorem isPrefixOf_fits {pat s t : List Char} (hlen : pat.length ≤ s.length) :
    List.isPrefixOf pat (s ++ t) = List.isPrefixOf pat s := by
  cases hps : List.isPrefixOf pat s with
  | true => exact isPrefixOf_mono hps
  | false =>
    cases hpt : List.isPrefixOf pat (s ++ t) with
    | false => rfl
    | true =>
      exfalso
      rw [List.isPrefixOf_iff_prefix] at hpt
      have h1 : pat = (s ++ t).take pat.length := List.prefix_iff_eq_take.mp hpt
      rw [List.take_append_eq_append_take, Nat.sub_eq_zero_of_le hlen] at h1
      simp only [List.take_nil, List.take_zero, List.append_nil] at h1
      have h2 : pat <+: s := h1 ▸ List.take_prefix _ _
      rw [← @List.isPrefixOf_iff_prefix _ _ _ pat s, hps] at h2
      exact Bool.noConfusion h2

theorem firstBraceSplit_append {l x p q : List Char}
    (h : firstBraceSplit l = some (p, q)) :
    firstBraceSplit (l ++ x) = some (p, q ++ x) := by
  induction l generalizing p q with
  | nil => simp [firstBraceSplit] at h
  | cons c cs ih =>
    rw [List.cons_append]
    unfold firstBraceSplit at h ⊢
    by_cases hc : c = '}'
    · simp only [hc, if_true, Option.some.injEq, Prod.mk.injEq] at h ⊢
      exact ⟨h.1, by rw [← h.2]⟩
    · simp only [hc, if_false] at h ⊢
      cases hcs : firstBraceSplit cs with
      | none => rw [hcs] at h; simp at h
      | some pr =>
        obtain ⟨a, b⟩ := pr
        rw [hcs] at h
        simp only [Option.some.injEq, Prod.mk.injEq] at h
        rw [ih hcs]
        simp [h.1, ← h.2]

theorem firstBraceSplit_of_contains {l : List Char}
    (h : l.contains '}' = true) : ∃ p q, firstBraceSplit l = some (p, q) := by
  induction l with
  | nil => simp at h
  | cons c cs ih =>
    by_cases hc : c = '}'
    · exact ⟨[], cs, by simp [firstBraceSplit, hc]⟩
    · have h' : cs.contains '}' = true := by
        simp only [List.contains_cons, Bool.or_eq_true, beq_iff_eq] at h
        rcases h with h | h
        · exact absurd h.symm hc
        · exact h
      obtain ⟨p, q, hpq⟩ := ih h'
      exact ⟨c :: p, q, by simp [firstBraceSplit, hc, hpq]⟩

theorem firstBraceSplit_length {l p q : List Char}
    (h : firstBraceSplit l = some (p, q)) :
    l.length = p.length + 1 + q.length := by
  induction l generalizing p q with
  | nil => simp [firstBraceSplit] at h
  | cons c cs ih =>
    unfold firstBraceSplit at h
    by_cases hc : c = '}'
    · simp only [hc, if_true, Option.some.injEq, Prod.mk.injEq] at h
      rw [← h.1, ← h.2]
      simp only [List.length_cons, List.length_nil]
      omega
    · simp only [hc, if_false] at h
      cases hcs : firstBraceSplit cs with
      | none => rw [hcs] at h; simp at h
      | some pr =>
        obtain ⟨a, b⟩ := pr
        rw [hcs] at h
        simp only [Option.some.injEq, Prod.mk.injEq] at h
        have := ih hcs
        rw [← h.1, ← h.2]
        simp only [List.length_cons]
        omega

theorem noCrossLit_tail {pat : List Char} {c : Char} {a : List Char}
    (h : noCrossLit pat (c :: a) = true) : noCrossLit pat a = true := by
  unfold noCrossLit at h ⊢
  simp only [List.tails_cons, List.all_cons, Bool.and_eq_true] at h
  exact h.2

theorem noCrossBrk_tail {op : List Char} {c : Char} {a : List Char}
    (h : noCrossBrk op (c :: a) = true) : noCrossBrk op a = true := by
  unfold noCrossBrk at h ⊢
  simp only [List.tails_cons, List.all_cons, Bool.and_eq_true] at h
  exact h.2

theorem self_mem_tails (a : List Char) : a ∈ a.tails := by
  cases a with
  | nil => simp
  | cons c cs => rw [List.tails_cons]; exact List.mem_cons_self _ _

theorem fit_of_noCrossLit {pat a t : List Char} (hnc : noCrossLit pat a = true)
    (ha : a ≠ []) (hp : List.isPrefixOf pat (a ++ t) = true) :
    pat.length ≤ a.length := by
  by_contra hlt
  push_neg at hlt
  have htake : pat.take a.length = a :=
    prefix_take_eq (List.isPrefixOf_iff_prefix.mp hp) (le_of_lt hlt)
  unfold noCrossLit at hnc
  rw [List.all_eq_true] at hnc
  have hcl := hnc a (self_mem_tails a)
  have hae : a.isEmpty = false := by
    cases a with
    | nil => exact absurd rfl ha
    | cons _ _ => rfl
  rw [hae, Bool.false_or, Bool.not_eq_true', Bool.and_eq_false_iff] at hcl
  rcases hcl with hcl | hcl
  · rw [decide_eq_false_iff_not] at hcl
    exact hcl hlt
  · rw [beq_eq_false_iff_ne] at hcl
    exact hcl htake

theorem fit_of_noCrossBrk {op a t : List Char} (hnc : noCrossBrk op a = true)
    (ha : a ≠ []) (hp : List.isPrefixOf op (a ++ t) = true) :
    op.length ≤ a.length := by
  by_contra hlt
  push_neg at hlt
  have htake : op.take a.length = a :=
    prefix_take_eq (List.isPrefixOf_iff_prefix.mp hp) (le_of_lt hlt)
  unfold noCrossBrk at hnc
  rw [List.all_eq_true] at hnc
  have hcl := hnc a (self_mem_tails a)
  have hae : a.isEmpty = false := by
    cases a with
    | nil => exact absurd rfl ha
    | cons _ _ => rfl
  rw [hae, Bool.false_or, if_pos hlt, Bool.not_eq_true', beq_eq_false_iff_ne]
    at hcl
  exact hcl htake

theorem close_of_noCrossBrk {op a : List Char} (hnc : noCrossBrk op a = true)
    (ha : a ≠ []) (hp : List.isPrefixOf op a = true) :
    (a.drop op.length).contains '}' = true := by
  have hfit : op.length ≤ a.length := by
    rw [List.isPrefixOf_iff_prefix] at hp
    exact hp.length_le
  unfold noCrossBrk at hnc
  rw [List.all_eq_true] at hnc
  have hcl := hnc a (self_mem_tails a)
  have hae : a.isEmpty = false := by
    cases a with
    | nil => exact absurd rfl ha
    | cons _ _ => rfl
  rw [hae, Bool.false_or, if_neg (Nat.not_lt.mpr hfit), Bool.or_eq_true] at hcl
  rcases hcl with hcl | hcl
  · rw [Bool.not_eq_true', hp] at hcl
    exact Bool.noConfusion hcl
  · exact hcl

theorem replaceGo_skipMiddle (ps repl : List Char) {m : List Char} (b : List Char)
    (hm : ∀ c ∈ m, ¬ c = '\\') :
    replaceGo ('\\' :: ps) repl 0 (m ++ b) = m ++ replaceGo ('\\' :: ps) repl 0 b := by
  induction m with
  | nil => simp
  | cons c m' ih =>
    have hc : c ≠ '\\' := hm c (List.mem_cons_self c m')
    have hb : ('\\' == c) = false := beq_eq_false_iff_ne.mpr fun h => hc h.symm
    have hpf : List.isPrefixOf ('\\' :: ps) (c :: (m' ++ b)) = false := by
      rw [List.isPrefixOf_cons₂, hb, Bool.false_and]
    rw [List.cons_append]
    simp only [replaceGo, hpf, Bool.false_eq_true, if_false]
    rw [ih fun x hx => hm x (List.mem_cons_of_mem c hx)]
    rfl

theorem brkGo_skipMiddle (os repl : List Char) {m : List Char} (b : List Char)
    (hm : ∀ c ∈ m, ¬ c = '\\') :
    brkGo ('\\' :: os) repl 0 (m ++ b) = m ++ brkGo ('\\' :: os) repl 0 b := by
  induction m with
  | nil => simp
  | cons c m' ih =>
    have hc : c ≠ '\\' := hm c (List.mem_cons_self c m')
    have hb : ('\\' == c) = false := beq_eq_false_iff_ne.mpr fun h => hc h.symm
    have hpf : List.isPrefixOf ('\\' :: os) (c :: (m' ++ b)) = false := by
      rw [List.isPrefixOf_cons₂, hb, Bool.false_and]
    rw [List.cons_append]
    simp only [brkGo, hpf, Bool.false_eq_true, if_false]
    rw [ih fun x hx => hm x (List.mem_cons_of_mem c hx)]
    rfl

theorem containsSub_skipMiddle (ps : List Char) {m : List Char} (b : List Char)
    (hm : ∀ c ∈ m, ¬ c = '\\') :
    containsSubL ('\\' :: ps) (m ++ b) = containsSubL ('\\' :: ps) b := by
  induction m with
  | nil => simp
  | cons c m' ih =>
    have hc : c ≠ '\\' := hm c (List.mem_cons_self c m')
    have hb : ('\\' == c) = false := beq_eq_false_iff_ne.mpr fun h => hc h.symm
    have hpf : List.isPrefixOf ('\\' :: ps) (c :: (m' ++ b)) = false := by
      rw [List.isPrefixOf_cons₂, hb, Bool.false_and]
    rw [List.cons_append]
    simp only [containsSubL, hpf, Bool.false_or]
    exact ih fun x hx => hm x (List.mem_cons_of_mem c hx)

theorem replaceGo_split (ps repl m b : List Char) (hm : ∀ c ∈ m, ¬ c = '\\') :
    ∀ a n, n ≤ a.length → noCrossLit ('\\' :: ps) a = true →
      replaceGo ('\\' :: ps) repl n (a ++ (m ++ b)) =
        replaceGo ('\\' :: ps) repl n a ++ (m ++ replaceGo ('\\' :: ps) repl 0 b) := by
  intro a
  induction a with
  | nil =>
    intro n hn _
    have hn0 : n = 0 := Nat.le_zero.mp hn
    subst hn0
    rw [List.nil_append]
    simp only [replaceGo, List.nil_append]
    exact replaceGo_skipMiddle ps repl b hm
  | cons c a' ih =>
    intro n hn hnc
    rw [List.cons_append]
    cases n with
    | succ k =>
      simp only [replaceGo]
      exact ih k (Nat.succ_le_succ_iff.mp (by simpa using hn)) (noCrossLit_tail hnc)
    | zero =>
      cases hp : List.isPrefixOf ('\\' :: ps) (c :: (a' ++ (m ++ b))) with
      | false =>
        have hp' : List.isPrefixOf ('\\' :: ps) (c :: a') = false := by
          cases hq : List.isPrefixOf ('\\' :: ps) (c :: a') with
          | false => rfl
          | true =>
            have hmono := @isPrefixOf_mono _ _ (m ++ b) hq
            rw [List.cons_append] at hmono
            rw [hmono] at hp
            exact Bool.noConfusion hp
        simp only [replaceGo, hp, hp', Bool.false_eq_true, if_false]
        rw [ih 0 (Nat.zero_le _) (noCrossLit_tail hnc)]
        rfl
      | true =>
        have hfit : ('\\' :: ps).length ≤ (c :: a').length := by
          apply fit_of_noCrossLit hnc (by simp)
          rw [List.cons_append]
          exact hp
        have hp' : List.isPrefixOf ('\\' :: ps) (c :: a') = true := by
          rw [← @isPrefixOf_fits _ _ (m ++ b) hfit, List.cons_append]
          exact hp
        have hle : ('\\' :: ps).length - 1 ≤ a'.length := by
          simp only [List.length_cons] at hfit ⊢
          omega
        simp only [replaceGo, hp, hp', if_true]
        rw [ih (('\\' :: ps).length - 1) hle (noCrossLit_tail hnc),
          List.append_assoc]

theorem brkGo_split (os repl m b : List Char) (hm : ∀ c ∈ m, ¬ c = '\\') :
    ∀ a n, n ≤ a.length → noCrossBrk ('\\' :: os) a = true →
      brkGo ('\\' :: os) repl n (a ++ (m ++ b)) =
        brkGo ('\\' :: os) repl n a ++ (m ++ brkGo ('\\' :: os) repl 0 b) := by
  intro a
  induction a with
  | nil =>
    intro n hn _
    have hn0 : n = 0 := Nat.le_zero.mp hn
    subst hn0
    rw [List.nil_append]
    simp only [brkGo, List.nil_append]
    exact brkGo_skipMiddle os repl b hm
  | cons c a' ih =>
    intro n hn hnc
    rw [List.cons_append]
    cases n with
    | succ k =>
      simp only [brkGo]
      exact ih k (Nat.succ_le_succ_iff.mp (by simpa using hn)) (noCrossBrk_tail hnc)
    | zero =>
      cases hp : List.isPrefixOf ('\\' :: os) (c :: (a' ++ (m ++ b))) with
      | false =>
        have hp' : List.isPrefixOf ('\\' :: os) (c :: a') = false := by
          cases hq : List.isPrefixOf ('\\' :: os) (c :: a') with
          | false => rfl
          | true =>
            have hmono := @isPrefixOf_mono _ _ (m ++ b) hq
            rw [List.cons_append] at hmono
            rw [hmono] at hp
            exact Bool.noConfusion hp
        simp only [brkGo, hp, hp', Bool.false_eq_true, if_false]
        rw [ih 0 (Nat.zero_le _) (noCrossBrk_tail hnc)]
        rfl
      | true =>
        have hfit : ('\\' :: os).length ≤ (c :: a').length := by
          apply fit_of_noCrossBrk hnc (by simp)
          rw [List.cons_append]
          exact hp
        have hp' : List.isPrefixOf ('\\' :: os) (c :: a') = true := by
          rw [← @isPrefixOf_fits _ _ (m ++ b) hfit, List.cons_append]
          exact hp
        have hclose := close_of_noCrossBrk hnc (by simp) hp'
        obtain ⟨p, q, hpq⟩ := firstBraceSplit_of_contains hclose
        have hdrop : (c :: (a' ++ (m ++ b))).drop ('\\' :: os).length =
            (c :: a').drop ('\\' :: os).length ++ (m ++ b) := by
          rw [← List.cons_append, List.drop_append_eq_append_drop,
            Nat.sub_eq_zero_of_le hfit, List.drop_zero]
        have hpq' : firstBraceSplit
            ((c :: (a' ++ (m ++ b))).drop ('\\' :: os).length) =
            some (p, q ++ (m ++ b)) := by
          rw [hdrop]
          exact firstBraceSplit_append hpq
        have hlen := firstBraceSplit_length hpq
        rw [List.length_drop, List.length_cons] at hlen
        have hle : ('\\' :: os).length + p.length ≤ a'.length := by
          simp only [List.length_cons] at hfit hlen ⊢
          omega
        simp only [brkGo, hp, hp', if_true, hpq, hpq']
        rw [ih (('\\' :: os).length + p.length) hle (noCrossBrk_tail hnc),
          List.append_assoc]

theorem replFirstL_split (ps repl m b : List Char) (_hm : ∀ c ∈ m, ¬ c = '\\') :
    ∀ a, noCrossLit ('\\' :: ps) a = true →
      containsSubL ('\\' :: ps) a = true →
      replFirstL ('\\' :: ps) repl (a ++ (m ++ b)) =
        replFirstL ('\\' :: ps) repl a ++ (m ++ b) := by
  intro a
  induction a with
  | nil =>
    intro _ hcon
    simp [containsSubL] at hcon
  | cons c a' ih =>
    intro hnc hcon
    rw [List.cons_append]
    cases hp : List.isPrefixOf ('\\' :: ps) (c :: (a' ++ (m ++ b))) with
    | false =>
      have hp' : List.isPrefixOf ('\\' :: ps) (c :: a') = false := by
        cases hq : List.isPrefixOf ('\\' :: ps) (c :: a') with
        | false => rfl
        | true =>
          have hmono := @isPrefixOf_mono _ _ (m ++ b) hq
          rw [List.cons_append] at hmono
          rw [hmono] at hp
          exact Bool.noConfusion hp
      have hcon' : containsSubL ('\\' :: ps) a' = true := by
        simp only [containsSubL, hp', Bool.false_or] at hcon
        exact hcon
      simp only [replFirstL, hp, hp', Bool.false_eq_true, if_false]
      rw [ih (noCrossLit_tail hnc) hcon']
      rfl
    | true =>
      have hfit : ('\\' :: ps).length ≤ (c :: a').length := by
        apply fit_of_noCrossLit hnc (by simp)
        rw [List.cons_append]
        exact hp
      have hp' : List.isPrefixOf ('\\' :: ps) (c :: a') = true := by
        rw [← @isPrefixOf_fits _ _ (m ++ b) hfit, List.cons_append]
        exact hp
      simp only [replFirstL, hp, hp', if_true]
      rw [← List.cons_append, List.drop_append_eq_append_drop,
        Nat.sub_eq_zero_of_le hfit, List.drop_zero, List.append_assoc]

theorem containsSubL_split (ps m b : List Char) (hm : ∀ c ∈ m, ¬ c = '\\') :
    ∀ a, noCrossLit ('\\' :: ps) a = true →
      containsSubL ('\\' :: ps) (a ++ (m ++ b)) =
        (containsSubL ('\\' :: ps) a || containsSubL ('\\' :: ps) b) := by
  intro a
  induction a with
  | nil =>
    intro _
    rw [List.nil_append, containsSub_skipMiddle ps b hm]
    simp [containsSubL]
  | cons c a' ih =>
    intro hnc
    rw [List.cons_append]
    cases hp : List.isPrefixOf ('\\' :: ps) (c :: (a' ++ (m ++ b))) with
    | false =>
      have hp' : List.isPrefixOf ('\\' :: ps) (c :: a') = false := by
        cases hq : List.isPrefixOf ('\\' :: ps) (c :: a') with
        | false => rfl
        | true =>
          have hmono := @isPrefixOf_mono _ _ (m ++ b) hq
          rw [List.cons_append] at hmono
          rw [hmono] at hp
          exact Bool.noConfusion hp
      simp only [containsSubL, hp, hp', Bool.false_or]
      exact ih (noCrossLit_tail hnc)
    | true =>
      have hfit : ('\\' :: ps).length ≤ (c :: a').length := by
        apply fit_of_noCrossLit hnc (by simp)
        rw [List.cons_append]
        exact hp
      have hp' : List.isPrefixOf ('\\' :: ps) (c :: a') = true := by
        rw [← @isPrefixOf_fits _ _ (m ++ b) hfit, List.cons_append]
        exact hp
      simp only [containsSubL, hp, hp', Bool.true_or]

theorem containsSub_middle (a m b : List Char) :
    containsSubL m (a ++ (m ++ b)) = true := by
  induction a with
  | nil =>
    rw [List.nil_append]
    cases m with
    | nil => cases b <;> simp [containsSubL]
    | cons c ms =>
      have hself : List.isPrefixOf (c :: ms) ((c :: ms) ++ b) = true :=
        isPrefixOf_mono (List.isPrefixOf_iff_prefix.mpr (List.prefix_refl _))
      rw [List.cons_append] at hself
      rw [List.cons_append]
      simp only [containsSubL, hself, Bool.true_or]
  | cons x a' ih =>
    rw [List.cons_append]
    simp only [containsSubL, ih, Bool.or_true]

theorem applyPass_split (p : RewritePass) (m b a : List Char)
    (hm : ∀ c ∈ m, ¬ c = '\\') (hpc : passNoCross p a = true) :
    applyPass p (a ++ (m ++ b)) = applyPass p a ++ (m ++ applyPass p b) := by
  cases p with
  | lit pat repl =>
    simp only [passNoCross, Bool.and_eq_true, beq_iff_eq] at hpc
    obtain ⟨hhead, hnc⟩ := hpc
    cases pat with
    | nil => simp at hhead
    | cons p0 ps =>
      have hp0 : p0 = '\\' := by simpa using hhead
      subst hp0
      simpa only [applyPass, replaceAllL] using
        replaceGo_split ps repl m b hm a 0 (Nat.zero_le _) hnc
  | brk opener =>
    simp only [passNoCross, Bool.and_eq_true, beq_iff_eq] at hpc
    obtain ⟨hhead, hnc⟩ := hpc
    cases opener with
    | nil => simp at hhead
    | cons o0 os =>
      have ho0 : o0 = '\\' := by simpa using hhead
      subst ho0
      simpa only [applyPass, brkAllL] using
        brkGo_split os [] m b hm a 0 (Nat.zero_le _) hnc

theorem foldl_passes_split (psl : List RewritePass) (m : List Char)
    (hm : ∀ c ∈ m, ¬ c = '\\') :
    ∀ a b, passesNoCross psl a = true →
      psl.foldl (fun s p => applyPass p s) (a ++ (m ++ b)) =
        psl.foldl (fun s p => applyPass p s) a ++
          (m ++ psl.foldl (fun s p => applyPass p s) b) := by
  induction psl with
  | nil => intro a b _; rfl
  | cons p pr ih =>
    intro a b hcond
    simp only [passesNoCross, Bool.and_eq_true] at hcond
    obtain ⟨h1, h2⟩ := hcond
    rw [List.foldl_cons, List.foldl_cons, List.foldl_cons,
      applyPass_split p m b a hm h1]
    exact ih (applyPass p a) (applyPass p b) h2

theorem simplifyCore_split (m b a : List Char) (hm : ∀ c ∈ m, ¬ c = '\\')
    (h : passesNoCross simplifyPasses a = true) :
    simplifyCore (a ++ (m ++ b)) =
      simplifyCore a ++ (m ++ simplifyCore b) :=
  foldl_passes_split simplifyPasses m hm a b h

/-- C6 counterexample: the plain-text body substring `"Phone 123"` (no
backslash, no braces — matching none of the recognized constructs)
overlaps the `\faPhone` icon-macro occurrence and does not survive
simplification byte-identically. -/
theorem C6_counterexample :
    containsSubL (S "Phone 123") iconOverlapSource = true ∧
    (∀ c ∈ S "Phone 123", ¬(c = '\\' ∨ c = '{' ∨ c = '}')) ∧
    containsSubL (S "Phone 123")
      (simplifyLatexForOnlineServices iconOverlapSource) = false := by
  decide

/-- C6 amended: a plain-text marker without backslashes survives
simplification byte-identically whenever no occurrence of a recognized
construct overlaps it — proved for every such marker injected between a
preamble (whose construct occurrences are all closed before the marker)
and a document tail.  The simplifier still rewrites the preamble: the
`fontawesome5` import is gone from the output. -/
theorem C6_amended (m : List Char) (hm : ∀ c ∈ m, ¬ c = '\\') :
    containsSubL m
      (simplifyLatexForOnlineServices (markerPre ++ (m ++ markerPost))) = true ∧
    containsSubL (S "\\usepackage{fontawesome5}")
      (simplifyLatexForOnlineServices (markerPre ++ (m ++ markerPost))) = false := by
  rw [simplify_eq_passes,
    simplifyCore_split m markerPost markerPre hm (by decide)]
  unfold geometryInsert
  have hgeom : containsSubL (S "\\usepackage{geometry}")
      (simplifyCore markerPre ++ (m ++ simplifyCore markerPost)) = false := by
    rw [show S "\\usepackage{geometry}" = '\\' :: S "usepackage{geometry}" from rfl,
      containsSubL_split (S "usepackage{geometry}") m (simplifyCore markerPost)
        hm (simplifyCore markerPre) (by decide)]
    decide
  rw [hgeom]
  simp only [Bool.false_eq_true, if_false]
  rw [show documentclassLit =
      '\\' :: S "documentclass[letterpaper,11pt]{article}" from rfl,
    replFirstL_split (S "documentclass[letterpaper,11pt]{article}") _ m
      (simplifyCore markerPost) hm (simplifyCore markerPre) (by decide) (by decide)]
  constructor
  · exact containsSub_middle _ m _
  · rw [show S "\\usepackage{fontawesome5}" =
        '\\' :: S "usepackage{fontawesome5}" from rfl,
      containsSubL_split (S "usepackage{fontawesome5}") m
        (simplifyCore markerPost) hm _ (by decide)]
    decide

/-- C6 amended, witness at the marker `"UNIQUE MARKER 99"`. -/
theorem C6_amended_witness :
    (∀ c ∈ S "UNIQUE MARKER 99", ¬ c = '\\') ∧
    (containsSubL (S "UNIQUE MARKER 99")
      (simplifyLatexForOnlineServices
        (markerPre ++ (S "UNIQUE MARKER 99" ++ markerPost))) = true ∧
     containsSubL (S "\\usepackage{fontawesome5}")
      (simplifyLatexForOnlineServices
        (markerPre ++ (S "UNIQUE MARKER 99" ++ markerPost))) = false) :=
  ⟨by decide, C6_amended (S "UNIQUE MARKER 99") (by decide)⟩

end ResumePipeline
